import Mathlib

/-!
# gosuto: a shallow embedding of `sudoku.go`

The grid is the Go value `[9][9]int`.  Cell values are unbounded integers (the
code only compares them with 1 and 9 and subtracts 1 inside that range, so no
machine arithmetic can wrap).  Indices handed to a function by its caller are
natural numbers and every indexed access is checked: `none` stands for the
run-time panic "index out of range".  Go strings are byte sequences: `len` counts
bytes and `s[j]` is byte `j`.
-/

namespace Gosuto

/-- The constant `UnsetValue = 0` marking a cell that has not been set. -/
def UnsetValue : Int := 0

/-- The struct `SudokuGrid` with its single field `grid [9][9]int`. -/
structure SudokuGrid where
  grid : Fin 9 → Fin 9 → Int

/-- One byte of a Go string. -/
abbrev Byte := Fin 256

/-- A Go `string`: an immutable sequence of bytes. -/
abbrev GoString := List Byte

/-- The two `fmt.Errorf` values of the parser and the one of the solver. -/
inductive GridError where
  /-- Error "soduko grid requires 9 rows of digits". -/
  | rowCount
  /-- Error "soduko grid row requires 9 characters". -/
  | rowLength
  /-- Error "grid was unsolvable". -/
  | unsolvable
deriving DecidableEq, Repr

/-- The function `newSudokuGrid`: every cell is `UnsetValue`. -/
def newSudokuGrid : SudokuGrid := ⟨fun _ _ => UnsetValue⟩

/-- The read `g.grid[r][c]`; `none` is the index-out-of-range panic. -/
def SudokuGrid.read (g : SudokuGrid) (r c : Nat) : Option Int :=
  if hr : r < 9 then
    if hc : c < 9 then some (g.grid ⟨r, hr⟩ ⟨c, hc⟩) else none
  else none

/-- The grid after `g.grid[r][c] = v` for indices known to be in range. -/
def SudokuGrid.set (g : SudokuGrid) (r c : Fin 9) (v : Int) : SudokuGrid :=
  ⟨fun i j => if i = r ∧ j = c then v else g.grid i j⟩

/-- The assignment `g.grid[r][c] = v`; `none` is the index-out-of-range panic. -/
def SudokuGrid.write (g : SudokuGrid) (r c : Nat) (v : Int) : Option SudokuGrid :=
  if hr : r < 9 then
    if hc : c < 9 then some (g.set ⟨r, hr⟩ ⟨c, hc⟩ v) else none
  else none

/-- The index `v-1` into a nine-element `pos`/checklist array, for `v` in `1..9`. -/
def digitIdx (v : Int) (h : 1 ≤ v ∧ v ≤ 9) : Fin 9 :=
  ⟨(v - 1).toNat, by omega⟩

/-- The array literal `[9]bool{false, ..., false}`. -/
def noneSeen : Fin 9 → Bool := fun _ => false

/-- The cells `g.grid[r][i]`, `i = 0..8`, in the order `validateRow` and
`getRowChecklist` visit them. -/
def rowCells (r : Nat) : List (Nat × Nat) :=
  (List.range 9).map fun i => (r, i)

/-- The cells `g.grid[i][c]`, `i = 0..8`, in the order `validateColumn` and
`getColumnChecklist` visit them. -/
def columnCells (c : Nat) : List (Nat × Nat) :=
  (List.range 9).map fun i => (i, c)

/-- The cells `g.grid[3*row+r][3*col+c]` with `row = s/3`, `col = s%3`, for `r = 0..2` and inside
it `c = 0..2`, in the order `validateSubGrid` and `getSubGridChecklist` visit them. -/
def subGridCells (s : Nat) : List (Nat × Nat) :=
  let row := s / 3
  let col := s % 3
  (List.range 3).flatMap fun r => (List.range 3).map fun c => (3 * row + r, 3 * col + c)

/-- The loop shared by `validateRow`, `validateColumn` and `validateSubGrid`: for each cell in
turn read `v`; when `v >= 1 && v <= 9`, return false if `pos[v-1]` is already true and set
`pos[v-1] = true` otherwise; return true after the last cell. -/
def SudokuGrid.validateCells (g : SudokuGrid) : List (Nat × Nat) → (Fin 9 → Bool) → Option Bool
  | [], _ => some true
  | (r, c) :: rest, pos =>
    match g.read r c with
    | none => none
    | some v =>
      if h : 1 ≤ v ∧ v ≤ 9 then
        if pos (digitIdx v h) = true then some false
        else g.validateCells rest (Function.update pos (digitIdx v h) true)
      else g.validateCells rest pos

/-- The method `validateRow`: true if row `r` has no duplicate values. -/
def SudokuGrid.validateRow (g : SudokuGrid) (r : Nat) : Option Bool :=
  g.validateCells (rowCells r) noneSeen

/-- The method `validateColumn`: true if column `c` has no duplicates. -/
def SudokuGrid.validateColumn (g : SudokuGrid) (c : Nat) : Option Bool :=
  g.validateCells (columnCells c) noneSeen

/-- The method `validateSubGrid`: true if sub-grid `s` has no duplicates. -/
def SudokuGrid.validateSubGrid (g : SudokuGrid) (s : Nat) : Option Bool :=
  g.validateCells (subGridCells s) noneSeen

/-- The `for` loop of `validate` over the remaining indices `i`; the three checks are joined by
the short-circuit `&&`, so a later one runs only when the earlier ones returned true. -/
def SudokuGrid.validateLoop (g : SudokuGrid) : List Nat → Option Bool
  | [] => some true
  | i :: rest =>
    match g.validateRow i with
    | none => none
    | some false => some false
    | some true =>
      match g.validateColumn i with
      | none => none
      | some false => some false
      | some true =>
        match g.validateSubGrid i with
        | none => none
        | some false => some false
        | some true => g.validateLoop rest

/-- The method `validate`: true if there are no duplicate digits in any row, column or
sub-grid. -/
def SudokuGrid.validate (g : SudokuGrid) : Option Bool :=
  g.validateLoop (List.range 9)

/-- The loop shared by `getRowChecklist`, `getColumnChecklist` and `getSubGridChecklist`: for
each cell in turn read `v` and, when `v >= 1 && v <= 9`, set `r[v-1] = true`. -/
def SudokuGrid.checklistCells (g : SudokuGrid) :
    List (Nat × Nat) → (Fin 9 → Bool) → Option (Fin 9 → Bool)
  | [], chk => some chk
  | (r, c) :: rest, chk =>
    match g.read r c with
    | none => none
    | some v =>
      if h : 1 ≤ v ∧ v ≤ 9 then g.checklistCells rest (Function.update chk (digitIdx v h) true)
      else g.checklistCells rest chk

/-- The method `getRowChecklist`. -/
def SudokuGrid.getRowChecklist (g : SudokuGrid) (n : Nat) : Option (Fin 9 → Bool) :=
  g.checklistCells (rowCells n) noneSeen

/-- The method `getColumnChecklist`. -/
def SudokuGrid.getColumnChecklist (g : SudokuGrid) (n : Nat) : Option (Fin 9 → Bool) :=
  g.checklistCells (columnCells n) noneSeen

/-- The method `getSubGridChecklist`. -/
def SudokuGrid.getSubGridChecklist (g : SudokuGrid) (n : Nat) : Option (Fin 9 → Bool) :=
  g.checklistCells (subGridCells n) noneSeen

/-- The function `cellToSubGrid`: the sub-grid of the cell at `(r, c)`. -/
def cellToSubGrid (r c : Nat) : Nat :=
  (r / 3) * 3 + c / 3

/-- The method `getCellOptions`: `i+1` is appended for `i = 0..8` in turn whenever none of the
three checklists has entry `i` set. -/
def SudokuGrid.getCellOptions (g : SudokuGrid) (r c : Nat) : Option (List Int) :=
  match g.getRowChecklist r with
  | none => none
  | some row =>
    match g.getColumnChecklist c with
    | none => none
    | some col =>
      match g.getSubGridChecklist (cellToSubGrid r c) with
      | none => none
      | some sub =>
        some (((List.finRange 9).filter fun i => !row i && !col i && !sub i).map
          fun i => (i.val : Int) + 1)

/-- The `for _, v := range opts` loop of `fill` at cell `(row, col)`: assign `v`, run the
recursive call `next` (which is `fill(n + 1)`), return true when it does, otherwise reset the
cell to `UnsetValue` and go on; false once the options are used up. -/
def fillLoop (next : SudokuGrid → Option (Bool × SudokuGrid)) (row col : Nat) :
    List Int → SudokuGrid → Option (Bool × SudokuGrid)
  | [], g => some (false, g)
  | v :: rest, g =>
    match g.write row col v with
    | none => none
    | some g1 =>
      match next g1 with
      | none => none
      | some (true, g2) => some (true, g2)
      | some (false, g2) =>
        match g2.write row col UnsetValue with
        | none => none
        | some g3 => fillLoop next row col rest g3

/-- The method `fill` with a bound on the depth of the recursion: the result is the returned
boolean and the grid the receiver points to afterwards.  `none` is a panic, or at fuel 0 with
`n < 81` the exhausted bound. -/
def SudokuGrid.fillAux : Nat → Nat → SudokuGrid → Option (Bool × SudokuGrid)
  | 0, n, g => if n ≥ 81 then some (true, g) else none
  | fuel + 1, n, g =>
    if n ≥ 81 then some (true, g)
    else
      let row := n / 9
      let col := n % 9
      match g.read row col with
      | none => none
      | some v =>
        if v ≥ 1 ∧ v ≤ 9 then SudokuGrid.fillAux fuel (n + 1) g
        else
          match g.getCellOptions row col with
          | none => none
          | some opts =>
            if opts.length = 0 then some (false, g)
            else fillLoop (SudokuGrid.fillAux fuel (n + 1)) row col opts g

/-- The method `fill`: every recursive call is on `n + 1` and the recursion stops at
`n >= 81`, so `81 - n` nested calls are all that is ever needed. -/
def SudokuGrid.fill (g : SudokuGrid) (n : Nat) : Option (Bool × SudokuGrid) :=
  SudokuGrid.fillAux (81 - n) n g

/-- The method `copy`: a new grid with every cell of `g` copied into it. -/
def SudokuGrid.copy (g : SudokuGrid) : SudokuGrid :=
  (List.finRange 9).foldl
    (fun acc i => (List.finRange 9).foldl (fun acc2 j => acc2.set i j (g.grid i j)) acc)
    newSudokuGrid

/-- The method `solve`: fill a copy from cell 0; the copy is returned on success and the error
"grid was unsolvable" otherwise.  The outer `none` is a panic. -/
def SudokuGrid.solve (g : SudokuGrid) : Option (Except GridError SudokuGrid) :=
  match g.copy.fill 0 with
  | none => none
  | some (false, _) => some (Except.error GridError.unsolvable)
  | some (true, r) => some (Except.ok r)

/-- A grid given by its rows, missing entries being unset. -/
def ofRows (rows : List (List Int)) : SudokuGrid :=
  ⟨fun i j => (rows.getD i.val []).getD j.val 0⟩

/-- The rows of a grid as lists. -/
def SudokuGrid.toRows (g : SudokuGrid) : List (List Int) :=
  (List.finRange 9).map fun i => (List.finRange 9).map fun j => g.grid i j

/-- Input of the first case of `solveTests`. -/
def solveTest0 : SudokuGrid := ofRows
  [[1,2,0,0,7,0,5,6,0],
   [5,0,7,9,3,2,0,8,0],
   [0,0,0,0,0,1,0,0,0],
   [0,1,0,2,4,0,0,5,0],
   [3,0,8,0,0,0,4,0,2],
   [0,7,0,0,8,5,0,1,0],
   [0,0,0,7,0,0,0,0,0],
   [0,8,0,4,2,3,7,0,1],
   [0,3,4,0,1,0,0,2,8]]

/-- Expected output of the first case of `solveTests`. -/
def solveTest0Expected : List (List Int) :=
  [[1,2,3,8,7,4,5,6,9],
   [5,6,7,9,3,2,1,8,4],
   [8,4,9,6,5,1,2,3,7],
   [9,1,6,2,4,7,8,5,3],
   [3,5,8,1,9,6,4,7,2],
   [4,7,2,3,8,5,9,1,6],
   [2,9,1,7,6,8,3,4,5],
   [6,8,5,4,2,3,7,9,1],
   [7,3,4,5,1,9,6,2,8]]

/-- A cell value that counts as a digit: `v >= 1 && v <= 9`. -/
abbrev IsDigit (v : Int) : Prop := 1 ≤ v ∧ v ≤ 9

/-- Two cells lie in the same row, the same column or the same 3x3 sub-grid. -/
def SameGroup (r1 c1 r2 c2 : Fin 9) : Prop :=
  r1 = r2 ∨ c1 = c2 ∨ (r1.val / 3 = r2.val / 3 ∧ c1.val / 3 = c2.val / 3)

/-- Two distinct cells of one row, column or sub-grid hold the same digit `1..9`. -/
def Conflict (g : SudokuGrid) : Prop :=
  ∃ r1 c1 r2 c2 : Fin 9, (r1, c1) ≠ (r2, c2) ∧ SameGroup r1 c1 r2 c2 ∧
    g.grid r1 c1 = g.grid r2 c2 ∧ IsDigit (g.grid r1 c1)

/-- The duplicate scan of `validateCells` on the values already read. -/
def scanVals : (Fin 9 → Bool) → List Int → Bool
  | _, [] => true
  | pos, v :: rest =>
    if h : 1 ≤ v ∧ v ≤ 9 then
      if pos (digitIdx v h) = true then false
      else scanVals (Function.update pos (digitIdx v h) true) rest
    else scanVals pos rest

/-- The marking of `checklistCells` on the values already read. -/
def markVals : (Fin 9 → Bool) → List Int → (Fin 9 → Bool)
  | chk, [] => chk
  | chk, v :: rest =>
    if h : 1 ≤ v ∧ v ≤ 9 then markVals (Function.update chk (digitIdx v h) true) rest
    else markVals chk rest

/-- In-range cells as the index pairs the loops are run on. -/
def coords (l : List (Fin 9 × Fin 9)) : List (Nat × Nat) :=
  l.map fun p => (p.1.val, p.2.val)

/-- The cells of row `r`. -/
def rowF (r : Fin 9) : List (Fin 9 × Fin 9) := (List.finRange 9).map fun i => (r, i)

/-- The cells of column `c`. -/
def colF (c : Fin 9) : List (Fin 9 × Fin 9) := (List.finRange 9).map fun i => (i, c)

/-- The cells of sub-grid `s`, row by row. -/
def subF (s : Fin 9) : List (Fin 9 × Fin 9) :=
  (List.finRange 9 ×ˢ List.finRange 9).filter
    fun p => p.1.val / 3 = s.val / 3 ∧ p.2.val / 3 = s.val % 3

/-- No digit occurs twice among the listed cells. -/
def NoDupOn (g : SudokuGrid) (l : List (Fin 9 × Fin 9)) : Prop :=
  ∀ p ∈ l, ∀ q ∈ l, IsDigit (g.grid p.1 p.2) → g.grid p.1 p.2 = g.grid q.1 q.2 → p = q

/-- The duplicate scan of one group of in-range cells. -/
def groupOk (g : SudokuGrid) (l : List (Fin 9 × Fin 9)) : Bool :=
  scanVals noneSeen (l.map fun p => g.grid p.1 p.2)

/-- The checklist of one group of in-range cells. -/
def groupMarks (g : SudokuGrid) (l : List (Fin 9 × Fin 9)) : Fin 9 → Bool :=
  markVals noneSeen (l.map fun p => g.grid p.1 p.2)

/-- The sub-grid index of an in-range cell. -/
def subOf (r c : Fin 9) : Fin 9 :=
  ⟨cellToSubGrid r.val c.val, by revert r c; decide⟩

/-- The list `getCellOptions` builds for an in-range cell. -/
def optsF (g : SudokuGrid) (r c : Fin 9) : List Int :=
  ((List.finRange 9).filter fun i =>
    !groupMarks g (rowF r) i && !groupMarks g (colF c) i && !groupMarks g (subF (subOf r c)) i).map
    fun i => (i.val : Int) + 1

/-- Digit `d` occurs in no cell of the row, the column or the sub-grid of cell `(r, c)`. -/
def Free (g : SudokuGrid) (r c : Fin 9) (d : Int) : Prop :=
  IsDigit d ∧ ∀ i j : Fin 9, SameGroup r c i j → g.grid i j ≠ d

/-- Row of the cell with row-major number `n`. -/
def rowIdx (n : Nat) (h : n < 81) : Fin 9 := ⟨n / 9, by omega⟩

/-- Column of the cell with row-major number `n`. -/
def colIdx (n : Nat) (_ : n < 81) : Fin 9 := ⟨n % 9, by omega⟩

/-- The cell with row-major number `n` (0 past the last cell). -/
def SudokuGrid.cellAt (g : SudokuGrid) (n : Nat) : Int :=
  if h : n < 81 then g.grid (rowIdx n h) (colIdx n h) else 0

/-- Every cell holds a value in `0..9`. -/
def Std (g : SudokuGrid) : Prop := ∀ i j : Fin 9, 0 ≤ g.grid i j ∧ g.grid i j ≤ 9

/-- Every cell holds a digit `1..9`. -/
def Full (g : SudokuGrid) : Prop := ∀ i j : Fin 9, IsDigit (g.grid i j)

/-- Grid `t` agrees with `g` on every cell where `g` holds a digit `1..9`. -/
def Extends (g t : SudokuGrid) : Prop :=
  ∀ i j : Fin 9, IsDigit (g.grid i j) → t.grid i j = g.grid i j

/-- Grid `t` is a valid completion of `g`: fully filled, free of duplicates in every row, column
and sub-grid, and equal to `g` on the givens of `g`. -/
def Completion (g t : SudokuGrid) : Prop := Full t ∧ ¬ Conflict t ∧ Extends g t

/-- Lexicographic comparison of the cells numbered `n` and up, read row-major: the two grids
agree there, or at the first cell from `n` on where they differ `s` holds the smaller value. -/
def LexFrom (n : Nat) (s t : SudokuGrid) : Prop :=
  (∀ k, n ≤ k → k < 81 → s.cellAt k = t.cellAt k) ∨
    ∃ m, n ≤ m ∧ m < 81 ∧ (∀ k, n ≤ k → k < m → s.cellAt k = t.cellAt k) ∧
      s.cellAt m < t.cellAt m

/-- Lexicographic order of the 81 cells read row-major: equal grids, or the smaller value in `s`
at the first cell where the two differ. -/
def LexLE (s t : SudokuGrid) : Prop :=
  s = t ∨ ∃ m, m < 81 ∧ (∀ k, k < m → s.cellAt k = t.cellAt k) ∧ s.cellAt m < t.cellAt m

/-- The solved grid the first case of `solveTests` expects. -/
def solveTest0Solved : SudokuGrid := ofRows solveTest0Expected

/-- The third grid of `validationTests` (expected invalid: row 0 holds 2 twice and row 1 holds 5
twice) with its last row left unset. -/
def conflictingGivens : SudokuGrid := ofRows
  [[4,3,2,2,6,9,7,8,1],
   [6,8,5,5,7,1,4,9,3],
   [1,9,7,8,3,4,5,6,2],
   [8,2,6,1,9,5,3,4,7],
   [3,7,4,6,8,2,9,1,5],
   [9,5,1,7,4,3,6,2,8],
   [5,1,9,3,2,6,8,7,4],
   [2,4,8,9,5,7,1,3,6],
   [0,0,0,0,0,0,0,0,0]]

/-- The grid `solve` returns for `conflictingGivens`. -/
def conflictingGivensFilled : SudokuGrid := ofRows
  [[4,3,2,2,6,9,7,8,1],
   [6,8,5,5,7,1,4,9,3],
   [1,9,7,8,3,4,5,6,2],
   [8,2,6,1,9,5,3,4,7],
   [3,7,4,6,8,2,9,1,5],
   [9,5,1,7,4,3,6,2,8],
   [5,1,9,3,2,6,8,7,4],
   [2,4,8,9,5,7,1,3,6],
   [7,6,3,4,1,8,2,5,9]]

/-- The rows of the grid a successful `solve` returns. -/
def solvedRows (res : Option (Except GridError SudokuGrid)) : Option (List (List Int)) :=
  match res with
  | some (Except.ok s) => some s.toRows
  | _ => none

/-- The grid with every digit `d` replaced by `10 - d` and the other cells kept.  The
replacement reverses the order of the digits, so the smallest completion of the mirrored grid
is the mirror image of the largest completion of the grid itself. -/
def SudokuGrid.mirror (g : SudokuGrid) : SudokuGrid :=
  ⟨fun i j => if 1 ≤ g.grid i j ∧ g.grid i j ≤ 9 then 10 - g.grid i j else g.grid i j⟩

/-- The function `runeToInt`: the digit value of the runes `'1'` (49) to `'9'` (57), which is
`r - '0'` with `'0'` = 48, and `UnsetValue` for every other rune. -/
def runeToInt (r : Int) : Int :=
  if r ≥ 49 ∧ r ≤ 57 then r - 48 else UnsetValue

/-- The inner loop of `setValuesFromStringArray` over the remaining `j`:
`g.grid[i][j] = runeToInt(rune(rowText[j]))`.  `none` is an index-out-of-range panic. -/
def SudokuGrid.setRowLoop (g : SudokuGrid) (i : Nat) (rowText : GoString) :
    List Nat → Option SudokuGrid
  | [] => some g
  | j :: rest =>
    match rowText[j]? with
    | none => none
    | some b =>
      match g.write i j (runeToInt (b.val : Int)) with
      | none => none
      | some g1 => SudokuGrid.setRowLoop g1 i rowText rest

/-- The outer loop of `setValuesFromStringArray` over the remaining `i`: the row-length error is
returned from inside the loop, with the rows before `i` already written. -/
def SudokuGrid.setRowsLoop (g : SudokuGrid) (rows : List GoString) :
    List Nat → Option (Option GridError × SudokuGrid)
  | [] => some (none, g)
  | i :: rest =>
    match rows[i]? with
    | none => none
    | some rowText =>
      if rowText.length ≠ 9 then some (some GridError.rowLength, g)
      else
        match g.setRowLoop i rowText (List.range 9) with
        | none => none
        | some g1 => SudokuGrid.setRowsLoop g1 rows rest

/-- The method `setValuesFromStringArray`: the returned error (`none` for `nil`) and the grid
the receiver points to afterwards.  The outer `none` is a panic. -/
def SudokuGrid.setValuesFromStringArray (g : SudokuGrid) (rows : List GoString) :
    Option (Option GridError × SudokuGrid) :=
  if rows.length ≠ 9 then some (some GridError.rowCount, g)
  else g.setRowsLoop rows (List.range 9)

/-- A character of the ASCII range as a byte. -/
def charByte (c : Char) : Byte := ⟨c.toNat % 256, Nat.mod_lt _ (by decide)⟩

/-- The verb `%d` of `fmt.Sprintf` on an `int`: the decimal digits, after a minus sign (byte 45)
when the number is negative. -/
def fmtD (v : Int) : GoString :=
  if v < 0 then (45 : Byte) :: (Nat.toDigits 10 v.natAbs).map charByte
  else (Nat.toDigits 10 v.toNat).map charByte

/-- The line "+---+---+---+\n" (`+` is byte 43, `-` byte 45, newline byte 10). -/
def border : GoString := [43, 45, 45, 45, 43, 45, 45, 45, 43, 45, 45, 45, 43, 10]

/-- The `Sprintf` of the plain branch of `toString` for row `i`: nine `%d` and a newline. -/
def SudokuGrid.plainRow (g : SudokuGrid) (i : Fin 9) : GoString :=
  fmtD (g.grid i 0) ++ fmtD (g.grid i 1) ++ fmtD (g.grid i 2) ++ fmtD (g.grid i 3) ++
    fmtD (g.grid i 4) ++ fmtD (g.grid i 5) ++ fmtD (g.grid i 6) ++ fmtD (g.grid i 7) ++
    fmtD (g.grid i 8) ++ [10]

/-- The `Sprintf` of the pretty branch of `toString` for row `i`: "|%d%d%d|%d%d%d|%d%d%d|\n"
(`|` is byte 124). -/
def SudokuGrid.prettyRow (g : SudokuGrid) (i : Fin 9) : GoString :=
  [124] ++ fmtD (g.grid i 0) ++ fmtD (g.grid i 1) ++ fmtD (g.grid i 2) ++
    [124] ++ fmtD (g.grid i 3) ++ fmtD (g.grid i 4) ++ fmtD (g.grid i 5) ++
    [124] ++ fmtD (g.grid i 6) ++ fmtD (g.grid i 7) ++ fmtD (g.grid i 8) ++ [124, 10]

/-- The method `toString`: what the `strings.Builder` holds after the optional top border and
the nine rows, a border following every third row in the pretty form. -/
def SudokuGrid.toString (g : SudokuGrid) (makePretty : Bool) : GoString :=
  (if makePretty then border else []) ++
    (List.finRange 9).flatMap fun i =>
      if makePretty then
        g.prettyRow i ++ (if (i.val + 1) % 3 = 0 then border else [])
      else g.plainRow i

/-- The nine digit bytes that print row `i` of a grid. -/
def SudokuGrid.digitLine (g : SudokuGrid) (i : Fin 9) : GoString :=
  List.ofFn fun j : Fin 9 => (⟨(48 + (g.grid i j).toNat) % 256, Nat.mod_lt _ (by decide)⟩ : Byte)

/-- The nine lines of a grid, without their newlines. -/
def SudokuGrid.digitLines (g : SudokuGrid) : List GoString :=
  List.ofFn fun i : Fin 9 => g.digitLine i

/-- The value `setValuesFromStringArray` stores for byte `j` of row `i` of its input. -/
def parsedCell (rows : List GoString) (i j : Nat) : Int :=
  runeToInt (((rows.getD i []).getD j 0).val : Int)

/-- The bytes of a text. -/
def bytes (s : String) : GoString := s.toList.map charByte

/-- Nine rows of nine bytes with blanks, a zero, letters and punctuation among the digits. -/
def parseSample : List GoString :=
  ["12 070560", "5x7932.8_", "000001000", "010240050", "308000402", "070085010", "000700000",
    "080423701", "034010028"].map bytes

/-- The cells `setValuesFromStringArray` stores for `parseSample`. -/
def parseSampleGrid : SudokuGrid := ofRows
  [[1,2,0,0,7,0,5,6,0],
   [5,0,7,9,3,2,0,8,0],
   [0,0,0,0,0,1,0,0,0],
   [0,1,0,2,4,0,0,5,0],
   [3,0,8,0,0,0,4,0,2],
   [0,7,0,0,8,5,0,1,0],
   [0,0,0,7,0,0,0,0,0],
   [0,8,0,4,2,3,7,0,1],
   [0,3,4,0,1,0,0,2,8]]

/-- The call `strings.ReplaceAll(s, " ", "")`: the text with every space byte (32) removed. -/
def removeSpaces (s : GoString) : GoString :=
  s.filter fun b => b ≠ 32

/-- The call `strings.Split(s, "\n")`: the substrings between the newline bytes (10) of `s`.  A
text with `k` newlines gives `k + 1` substrings, the last of them empty when the text ends in a
newline, and the empty text gives one empty substring. -/
def splitLines : GoString → List GoString
  | [] => [[]]
  | b :: rest =>
    if b = 10 then [] :: splitLines rest
    else
      match splitLines rest with
      | [] => [[b]]
      | l :: ls => (b :: l) :: ls

/-- The method `setValuesFromString`: spaces removed, the text split at newlines, and the rows
handed to `setValuesFromStringArray`. -/
def SudokuGrid.setValuesFromString (g : SudokuGrid) (s : GoString) :
    Option (Option GridError × SudokuGrid) :=
  g.setValuesFromStringArray (splitLines (removeSpaces s))

/-- The text "+---+---+---+" of a border line, without its newline. -/
def borderLine : GoString := [43, 45, 45, 45, 43, 45, 45, 45, 43, 45, 45, 45, 43]

/-- The byte that prints a cell value in `0..9`: `'0'` (48) plus the value. -/
def digitByte (v : Int) : Byte := ⟨(48 + v.toNat) % 256, Nat.mod_lt _ (by decide)⟩

/-- The text `|ddd|ddd|ddd|` of row `i` of a grid with cells in `0..9`, without its newline. -/
def SudokuGrid.prettyLine (g : SudokuGrid) (i : Fin 9) : GoString :=
  [124, digitByte (g.grid i 0), digitByte (g.grid i 1), digitByte (g.grid i 2),
    124, digitByte (g.grid i 3), digitByte (g.grid i 4), digitByte (g.grid i 5),
    124, digitByte (g.grid i 6), digitByte (g.grid i 7), digitByte (g.grid i 8), 124]

/-- The thirteen lines of the pretty form of a grid with cells in `0..9`, without their
newlines. -/
def SudokuGrid.prettyLines (g : SudokuGrid) : List GoString :=
  [borderLine, g.prettyLine 0, g.prettyLine 1, g.prettyLine 2,
    borderLine, g.prettyLine 3, g.prettyLine 4, g.prettyLine 5,
    borderLine, g.prettyLine 6, g.prettyLine 7, g.prettyLine 8, borderLine]

/-- The two grids a call of `solve` or `copy` works with: the grid the receiver `g` points to
and the local variable `r` that `copy` builds and `solve` fills. -/
structure Frame where
  /-- The grid the receiver points to. -/
  recv : SudokuGrid
  /-- The local grid `r`. -/
  r : SudokuGrid

/-- The statement `r.grid[i][j] = g.grid[i][j]` of `copy`: a read of the receiver and a write
to the local grid. -/
def copyStep (st : Frame) (i j : Fin 9) : Frame :=
  ⟨st.recv, st.r.set i j (st.recv.grid i j)⟩

/-- The method `copy` as a change of both grids: `r` starts as `newSudokuGrid()` and the two
loops run `copyStep` on every cell. -/
def SudokuGrid.copySt (g : SudokuGrid) : Frame :=
  (List.finRange 9).foldl
    (fun st i => (List.finRange 9).foldl (fun st2 j => copyStep st2 i j) st)
    ⟨g, newSudokuGrid⟩

/-- The method `solve` with the receiver as explicit state: the returned value and the grid
the receiver points to after the call.  `fill` runs on the local copy `r`. -/
def SudokuGrid.solveSt (g : SudokuGrid) :
    Option (Except GridError SudokuGrid × SudokuGrid) :=
  match g.copySt.r.fill 0 with
  | none => none
  | some (false, _) => some (Except.error GridError.unsolvable, g.copySt.recv)
  | some (true, r2) => some (Except.ok r2, g.copySt.recv)

/-- A grid with cells in `0..9` on which `fill(0)` fails after trying both options of the
first cell: row 0 lacks 1 and 2, and column 1 holds both. -/
def deadEnd : SudokuGrid := ofRows
  [[0,0,3,4,5,6,7,8,9],
   [0,0,0,0,0,0,0,0,0],
   [0,0,0,0,0,0,0,0,0],
   [0,1,0,0,0,0,0,0,0],
   [0,2,0,0,0,0,0,0,0],
   [0,0,0,0,0,0,0,0,0],
   [0,0,0,0,0,0,0,0,0],
   [0,0,0,0,0,0,0,0,0],
   [0,0,0,0,0,0,0,0,0]]

/-- Nine rows of which row 2 is the first that does not have nine bytes. -/
def shortRowSample : List GoString :=
  ["120070560", "507932080", "0000", "010240050", "308000402", "070085010", "000700000",
    "0804237011", "034010028"].map bytes

/-- Eight rows only. -/
def eightRowSample : List GoString :=
  ["120070560", "507932080", "000001000", "010240050", "308000402", "070085010", "000700000",
    "080423701"].map bytes

/-- The statement `c.grid[row][col] = v` on the copy that `copy` returned: a write to the local
grid. -/
def setCopyCell (st : Frame) (row col : Fin 9) (v : Int) : Frame :=
  ⟨st.recv, st.r.set row col v⟩

/-- The byte with value `n` modulo 256. -/
def byteOf (n : Nat) : Byte := ⟨n % 256, Nat.mod_lt _ (by decide)⟩

/-- The UTF-8 encoding of one character, the form in which Go holds text in a `string`: one
byte for a character of the ASCII range (below 128), two to four bytes for any other. -/
def utf8Char (c : Char) : GoString :=
  if c.toNat < 128 then [byteOf c.toNat]
  else if c.toNat < 2048 then [byteOf (192 + c.toNat / 64), byteOf (128 + c.toNat % 64)]
  else if c.toNat < 65536 then
    [byteOf (224 + c.toNat / 4096), byteOf (128 + c.toNat / 64 % 64), byteOf (128 + c.toNat % 64)]
  else
    [byteOf (240 + c.toNat / 262144), byteOf (128 + c.toNat / 4096 % 64),
      byteOf (128 + c.toNat / 64 % 64), byteOf (128 + c.toNat % 64)]

/-- The Go `string` holding a text: the UTF-8 bytes of its characters. -/
def utf8 (t : String) : GoString := t.toList.flatMap utf8Char

/-- Nine rows of nine characters each; the first ends in a character outside ASCII, which
takes two bytes. -/
def nineCharRows : List String :=
  ["12345678é", "507932080", "000001000", "010240050", "308000402", "070085010", "000700000",
    "080423701", "034010028"]

/-- Nine rows of which the first has eight characters, the last of them outside ASCII, and so
nine bytes. -/
def eightCharRows : List String :=
  ["1234567é", "507932080", "000001000", "010240050", "308000402", "070085010", "000700000",
    "080423701", "034010028"]

/-- Nine rows of nine ASCII characters each, with a blank, letters and punctuation. -/
def asciiRows : List String :=
  ["12 070560", "5x7932.8_", "000001000", "010240050", "308000402", "070085010", "000700000",
    "080423701", "034010028"]
theorem read_fin (g : SudokuGrid) (r c : Fin 9) : g.read r.val c.val = some (g.grid r c) := by
  simp [SudokuGrid.read]

theorem write_fin (g : SudokuGrid) (r c : Fin 9) (v : Int) :
    g.write r.val c.val v = some (g.set r c v) := by
  simp [SudokuGrid.write]

theorem digitIdx_val (v : Int) (h : 1 ≤ v ∧ v ≤ 9) : ((digitIdx v h).val : Int) = v - 1 := by
  simp [digitIdx]; omega

theorem digitIdx_inj (v w : Int) (hv : 1 ≤ v ∧ v ≤ 9) (hw : 1 ≤ w ∧ w ≤ 9) :
    digitIdx v hv = digitIdx w hw ↔ v = w := by
  constructor
  · intro h
    have h1 := digitIdx_val v hv
    have h2 := digitIdx_val w hw
    rw [h] at h1
    omega
  · intro h
    subst h
    rfl

theorem rowCells_fin (r : Fin 9) : rowCells r.val = coords (rowF r) := by
  revert r; decide

theorem columnCells_fin (c : Fin 9) : columnCells c.val = coords (colF c) := by
  revert c; decide

theorem subGridCells_fin (s : Fin 9) : subGridCells s.val = coords (subF s) := by
  revert s; decide

theorem validateCells_coords (g : SudokuGrid) (l : List (Fin 9 × Fin 9)) (pos : Fin 9 → Bool) :
    g.validateCells (coords l) pos = some (scanVals pos (l.map fun p => g.grid p.1 p.2)) := by
  induction l generalizing pos with
  | nil => rfl
  | cons p rest ih =>
    simp only [coords, List.map_cons, SudokuGrid.validateCells, read_fin, scanVals]
    by_cases h : 1 ≤ g.grid p.1 p.2 ∧ g.grid p.1 p.2 ≤ 9
    · by_cases hp : pos (digitIdx _ h) = true
      · rw [dif_pos h, dif_pos h, if_pos hp, if_pos hp]
      · rw [dif_pos h, dif_pos h, if_neg hp, if_neg hp]
        exact ih _
    · rw [dif_neg h, dif_neg h]
      exact ih _

theorem checklistCells_coords (g : SudokuGrid) (l : List (Fin 9 × Fin 9)) (chk : Fin 9 → Bool) :
    g.checklistCells (coords l) chk = some (markVals chk (l.map fun p => g.grid p.1 p.2)) := by
  induction l generalizing chk with
  | nil => rfl
  | cons p rest ih =>
    simp only [coords, List.map_cons, SudokuGrid.checklistCells, read_fin, markVals]
    by_cases h : 1 ≤ g.grid p.1 p.2 ∧ g.grid p.1 p.2 ≤ 9
    · rw [dif_pos h, dif_pos h]
      exact ih _
    · rw [dif_neg h, dif_neg h]
      exact ih _

theorem scanVals_iff (pos : Fin 9 → Bool) (vs : List Int) :
    scanVals pos vs = true ↔
      (vs.filter fun v => decide (IsDigit v)).Nodup ∧
        ∀ v ∈ vs, ∀ h : 1 ≤ v ∧ v ≤ 9, pos (digitIdx v h) = false := by
  induction vs generalizing pos with
  | nil => simp [scanVals]
  | cons v rest ih =>
    by_cases h : 1 ≤ v ∧ v ≤ 9
    · by_cases hp : pos (digitIdx v h) = true
      · rw [scanVals, dif_pos h, if_pos hp]
        constructor
        · intro hf; cases hf
        · rintro ⟨-, h2⟩
          have := h2 v (List.mem_cons_self _ _) h
          rw [hp] at this; cases this
      · rw [scanVals, dif_pos h, if_neg hp, ih]
        have hd : decide (IsDigit v) = true := by simpa [IsDigit] using h
        rw [List.filter_cons, if_pos hd, List.nodup_cons]
        simp only [Bool.not_eq_true] at hp
        constructor
        · rintro ⟨hn, hall⟩
          refine ⟨⟨?_, hn⟩, ?_⟩
          · intro hmem
            have hm := (List.mem_filter.1 hmem).1
            have := hall v hm h
            simp at this
          · intro w hw hwd
            rcases List.mem_cons.1 hw with rfl | hw
            · exact hp
            · have := hall w hw hwd
              by_cases he : digitIdx w hwd = digitIdx v h
              · rw [he] at this; simp at this
              · rwa [Function.update_noteq he] at this
        · rintro ⟨⟨hnm, hn⟩, hall⟩
          refine ⟨hn, ?_⟩
          intro w hw hwd
          have hne : w ≠ v := by
            rintro rfl
            exact hnm (List.mem_filter.2 ⟨hw, hd⟩)
          have he : digitIdx w hwd ≠ digitIdx v h := fun he => hne ((digitIdx_inj _ _ _ _).1 he)
          rw [Function.update_noteq he]
          exact hall w (List.mem_cons_of_mem _ hw) hwd
    · rw [scanVals, dif_neg h, ih]
      have hd : ¬ decide (IsDigit v) = true := by simpa [IsDigit] using h
      rw [List.filter_cons, if_neg hd]
      constructor
      · rintro ⟨hn, hall⟩
        refine ⟨hn, ?_⟩
        intro w hw hwd
        rcases List.mem_cons.1 hw with rfl | hw
        · exact absurd hwd h
        · exact hall w hw hwd
      · rintro ⟨hn, hall⟩
        exact ⟨hn, fun w hw hwd => hall w (List.mem_cons_of_mem _ hw) hwd⟩

theorem scanVals_noDupOn (g : SudokuGrid) (l : List (Fin 9 × Fin 9)) (hl : l.Nodup) :
    scanVals noneSeen (l.map fun p => g.grid p.1 p.2) = true ↔ NoDupOn g l := by
  rw [scanVals_iff, List.filter_map, List.nodup_map_iff_inj_on (hl.filter _)]
  simp only [noneSeen, implies_true, and_true, List.mem_filter, Function.comp, decide_eq_true_eq]
  constructor
  · intro h p hp q hq hd he
    exact h p ⟨hp, hd⟩ q ⟨hq, he ▸ hd⟩ he
  · intro h p hp q hq he
    exact h p hp.1 q hq.1 hp.2 he
theorem mem_rowF (r : Fin 9) (p : Fin 9 × Fin 9) : p ∈ rowF r ↔ p.1 = r := by
  revert r p; decide

theorem mem_colF (c : Fin 9) (p : Fin 9 × Fin 9) : p ∈ colF c ↔ p.2 = c := by
  revert c p; decide

theorem mem_subF (s : Fin 9) (p : Fin 9 × Fin 9) :
    p ∈ subF s ↔ cellToSubGrid p.1.val p.2.val = s.val := by
  revert s p; decide

theorem nodup_rowF (r : Fin 9) : (rowF r).Nodup := by
  revert r; decide

theorem nodup_colF (c : Fin 9) : (colF c).Nodup := by
  revert c; decide

theorem nodup_subF (s : Fin 9) : (subF s).Nodup := by
  revert s; decide

theorem groupOk_iff (g : SudokuGrid) (l : List (Fin 9 × Fin 9)) (hl : l.Nodup) :
    groupOk g l = true ↔ NoDupOn g l :=
  scanVals_noDupOn g l hl

theorem validateRow_fin (g : SudokuGrid) (r : Fin 9) :
    g.validateRow r.val = some (groupOk g (rowF r)) := by
  rw [SudokuGrid.validateRow, rowCells_fin, validateCells_coords]; rfl

theorem validateColumn_fin (g : SudokuGrid) (c : Fin 9) :
    g.validateColumn c.val = some (groupOk g (colF c)) := by
  rw [SudokuGrid.validateColumn, columnCells_fin, validateCells_coords]; rfl

theorem validateSubGrid_fin (g : SudokuGrid) (s : Fin 9) :
    g.validateSubGrid s.val = some (groupOk g (subF s)) := by
  rw [SudokuGrid.validateSubGrid, subGridCells_fin, validateCells_coords]; rfl

theorem validateLoop_fin (g : SudokuGrid) (l : List (Fin 9)) :
    g.validateLoop (l.map Fin.val) =
      some (l.all fun i => groupOk g (rowF i) && groupOk g (colF i) && groupOk g (subF i)) := by
  induction l with
  | nil => rfl
  | cons i rest ih =>
    rw [List.map_cons, SudokuGrid.validateLoop, validateRow_fin, validateColumn_fin,
      validateSubGrid_fin, List.all_cons]
    cases groupOk g (rowF i) <;> cases groupOk g (colF i) <;> cases groupOk g (subF i) <;>
      simp [ih]

theorem validate_eq (g : SudokuGrid) :
    g.validate =
      some ((List.finRange 9).all fun i =>
        groupOk g (rowF i) && groupOk g (colF i) && groupOk g (subF i)) := by
  rw [SudokuGrid.validate, ← List.map_coe_finRange, validateLoop_fin]

theorem cellToSubGrid_lt (r c : Fin 9) : cellToSubGrid r.val c.val < 9 := by
  revert r c; decide

theorem sameSub_iff (r1 c1 r2 c2 : Fin 9) :
    (r1.val / 3 = r2.val / 3 ∧ c1.val / 3 = c2.val / 3) ↔
      cellToSubGrid r1.val c1.val = cellToSubGrid r2.val c2.val := by
  revert r1 c1 r2 c2; decide

theorem groups_ok_iff (g : SudokuGrid) :
    (∀ i : Fin 9, NoDupOn g (rowF i) ∧ NoDupOn g (colF i) ∧ NoDupOn g (subF i)) ↔
      ¬ Conflict g := by
  constructor
  · rintro h ⟨r1, c1, r2, c2, hne, hgrp, heq, hd⟩
    rcases hgrp with hr | hc | hs
    · exact hne ((h r1).1 (r1, c1) ((mem_rowF _ _).2 rfl) (r2, c2) ((mem_rowF _ _).2 hr.symm)
        hd heq)
    · exact hne ((h c1).2.1 (r1, c1) ((mem_colF _ _).2 rfl) (r2, c2) ((mem_colF _ _).2 hc.symm)
        hd heq)
    · have hs2 := (sameSub_iff r1 c1 r2 c2).1 hs
      exact hne ((h ⟨cellToSubGrid r1.val c1.val, cellToSubGrid_lt r1 c1⟩).2.2 (r1, c1)
        ((mem_subF _ _).2 rfl) (r2, c2) ((mem_subF _ _).2 hs2.symm) hd heq)
  · intro h i
    refine ⟨?_, ?_, ?_⟩
    · intro p hp q hq hd heq
      by_contra hne
      refine h ⟨p.1, p.2, q.1, q.2, hne, Or.inl ?_, heq, hd⟩
      rw [(mem_rowF _ _).1 hp, (mem_rowF _ _).1 hq]
    · intro p hp q hq hd heq
      by_contra hne
      refine h ⟨p.1, p.2, q.1, q.2, hne, Or.inr (Or.inl ?_), heq, hd⟩
      rw [(mem_colF _ _).1 hp, (mem_colF _ _).1 hq]
    · intro p hp q hq hd heq
      by_contra hne
      refine h ⟨p.1, p.2, q.1, q.2, hne, Or.inr (Or.inr ?_), heq, hd⟩
      rw [sameSub_iff, (mem_subF _ _).1 hp, (mem_subF _ _).1 hq]

theorem validate_true_iff (g : SudokuGrid) : g.validate = some true ↔ ¬ Conflict g := by
  rw [validate_eq, ← groups_ok_iff]
  simp only [Option.some.injEq, List.all_eq_true, List.mem_finRange, true_implies,
    Bool.and_eq_true, groupOk_iff _ _ (nodup_rowF _), groupOk_iff _ _ (nodup_colF _),
    groupOk_iff _ _ (nodup_subF _), and_assoc]

theorem validate_false_iff (g : SudokuGrid) : g.validate = some false ↔ Conflict g := by
  have h := validate_true_iff g
  rw [validate_eq] at h ⊢
  cases hb : (List.finRange 9).all fun i =>
      groupOk g (rowF i) && groupOk g (colF i) && groupOk g (subF i)
  · rw [hb] at h
    simp only [Option.some.injEq, true_iff]
    by_contra hc
    have := h.2 hc
    simp at this
  · rw [hb] at h
    simp only [Option.some.injEq, Bool.true_eq_false, false_iff]
    exact h.1 rfl
theorem markVals_iff (chk : Fin 9 → Bool) (vs : List Int) (i : Fin 9) :
    markVals chk vs i = true ↔ chk i = true ∨ ((i.val : Int) + 1) ∈ vs := by
  induction vs generalizing chk with
  | nil => simp [markVals]
  | cons v rest ih =>
    have hi : (0 : Int) ≤ i.val ∧ (i.val : Int) < 9 := ⟨by omega, by omega⟩
    by_cases h : 1 ≤ v ∧ v ≤ 9
    · rw [markVals, dif_pos h, ih, List.mem_cons]
      have hv := digitIdx_val v h
      by_cases he : i = digitIdx v h
      · have : (i.val : Int) + 1 = v := by rw [he]; omega
        rw [he, Function.update_same]
        rw [he] at this
        simp [this]
      · have : (i.val : Int) + 1 ≠ v := by
          intro hc
          apply he
          apply Fin.ext
          have : ((digitIdx v h).val : Int) = (i.val : Int) := by omega
          exact_mod_cast this.symm
        rw [Function.update_noteq he]
        simp [this]
    · rw [markVals, dif_neg h, ih, List.mem_cons]
      have : (i.val : Int) + 1 ≠ v := by
        intro hc
        apply h
        omega
      simp [this]

theorem groupMarks_false_iff (g : SudokuGrid) (l : List (Fin 9 × Fin 9)) (i : Fin 9) :
    groupMarks g l i = false ↔ ∀ p ∈ l, g.grid p.1 p.2 ≠ (i.val : Int) + 1 := by
  rw [← Bool.not_eq_true, groupMarks, markVals_iff]
  simp only [noneSeen, Bool.false_eq_true, false_or, List.mem_map, not_exists, not_and]

theorem getRowChecklist_fin (g : SudokuGrid) (r : Fin 9) :
    g.getRowChecklist r.val = some (groupMarks g (rowF r)) := by
  rw [SudokuGrid.getRowChecklist, rowCells_fin, checklistCells_coords]; rfl

theorem getColumnChecklist_fin (g : SudokuGrid) (c : Fin 9) :
    g.getColumnChecklist c.val = some (groupMarks g (colF c)) := by
  rw [SudokuGrid.getColumnChecklist, columnCells_fin, checklistCells_coords]; rfl

theorem getSubGridChecklist_fin (g : SudokuGrid) (s : Fin 9) :
    g.getSubGridChecklist s.val = some (groupMarks g (subF s)) := by
  rw [SudokuGrid.getSubGridChecklist, subGridCells_fin, checklistCells_coords]; rfl

theorem getCellOptions_fin (g : SudokuGrid) (r c : Fin 9) :
    g.getCellOptions r.val c.val = some (optsF g r c) := by
  have hs : cellToSubGrid r.val c.val = (subOf r c).val := rfl
  rw [SudokuGrid.getCellOptions, getRowChecklist_fin, getColumnChecklist_fin, hs,
    getSubGridChecklist_fin]
  rfl

theorem mem_optsF (g : SudokuGrid) (r c : Fin 9) (d : Int) :
    d ∈ optsF g r c ↔ Free g r c d := by
  simp only [optsF, List.mem_map, List.mem_filter, List.mem_finRange, true_and,
    Bool.and_eq_true, Bool.not_eq_true', groupMarks_false_iff, mem_rowF, mem_colF, mem_subF,
    Free, IsDigit, SameGroup]
  constructor
  · rintro ⟨i, ⟨⟨hr, hc⟩, hs⟩, rfl⟩
    refine ⟨⟨by omega, by omega⟩, ?_⟩
    intro a b hab
    rcases hab with h | h | h
    · exact hr (a, b) h.symm
    · exact hc (a, b) h.symm
    · refine hs (a, b) ?_
      rw [sameSub_iff] at h
      exact h.symm
  · rintro ⟨⟨h1, h9⟩, hall⟩
    refine ⟨⟨(d - 1).toNat, by omega⟩, ⟨⟨?_, ?_⟩, ?_⟩, ?_⟩
    · intro p hp
      have := hall p.1 p.2 (Or.inl hp.symm)
      intro hc; apply this; rw [hc]; simp; omega
    · intro p hp
      have := hall p.1 p.2 (Or.inr (Or.inl hp.symm))
      intro hc; apply this; rw [hc]; simp; omega
    · intro p hp
      have := hall p.1 p.2 (Or.inr (Or.inr ((sameSub_iff _ _ _ _).2 hp.symm)))
      intro hc; apply this; rw [hc]; simp; omega
    · simp; omega

theorem optsF_sorted (g : SudokuGrid) (r c : Fin 9) :
    (optsF g r c).Pairwise (fun a b => a < b) := by
  rw [optsF, List.pairwise_map]
  refine List.Pairwise.imp ?_ ((List.pairwise_lt_finRange 9).filter _)
  intro a b hab
  have : a.val < b.val := hab
  omega
theorem fill_done (g : SudokuGrid) (n : Nat) (h : 81 ≤ n) : g.fill n = some (true, g) := by
  have e : 81 - n = 0 := by omega
  rw [SudokuGrid.fill, e, SudokuGrid.fillAux, if_pos h]

theorem fillLoop_nil (next : SudokuGrid → Option (Bool × SudokuGrid)) (row col : Nat)
    (g : SudokuGrid) : fillLoop next row col [] g = some (false, g) := rfl

theorem fillLoop_cons_true (next : SudokuGrid → Option (Bool × SudokuGrid)) (r c : Fin 9)
    (v : Int) (rest : List Int) (g g2 : SudokuGrid) (h : next (g.set r c v) = some (true, g2)) :
    fillLoop next r.val c.val (v :: rest) g = some (true, g2) := by
  rw [fillLoop, write_fin]
  simp only [h]

theorem fillLoop_cons_false (next : SudokuGrid → Option (Bool × SudokuGrid)) (r c : Fin 9)
    (v : Int) (rest : List Int) (g g2 : SudokuGrid) (h : next (g.set r c v) = some (false, g2)) :
    fillLoop next r.val c.val (v :: rest) g =
      fillLoop next r.val c.val rest (g2.set r c UnsetValue) := by
  rw [fillLoop, write_fin]
  simp only [h, write_fin]

theorem fill_unfold (g : SudokuGrid) (n : Nat) (h : n < 81) :
    g.fill n =
      if IsDigit (g.grid (rowIdx n h) (colIdx n h)) then g.fill (n + 1)
      else fillLoop (fun x => x.fill (n + 1)) (rowIdx n h).val (colIdx n h).val
        (optsF g (rowIdx n h) (colIdx n h)) g := by
  have e : 81 - n = (80 - n) + 1 := by omega
  have e2 : 81 - (n + 1) = 80 - n := by omega
  have hr : n / 9 = (rowIdx n h).val := rfl
  have hc : n % 9 = (colIdx n h).val := rfl
  have hn : ¬ n ≥ 81 := by omega
  simp only [SudokuGrid.fill, e, e2, SudokuGrid.fillAux, if_neg hn]
  rw [hr, hc, read_fin, getCellOptions_fin]
  simp only
  by_cases hd : IsDigit (g.grid (rowIdx n h) (colIdx n h))
  · have hd2 : g.grid (rowIdx n h) (colIdx n h) ≥ 1 ∧ g.grid (rowIdx n h) (colIdx n h) ≤ 9 := hd
    rw [if_pos hd2, if_pos hd]
  · have hd2 : ¬ (g.grid (rowIdx n h) (colIdx n h) ≥ 1 ∧ g.grid (rowIdx n h) (colIdx n h) ≤ 9) :=
      hd
    rw [if_neg hd2, if_neg hd]
    by_cases hl : (optsF g (rowIdx n h) (colIdx n h)).length = 0
    · rw [if_pos hl, List.length_eq_zero.1 hl]
      rfl
    · rw [if_neg hl]

theorem set_same (g : SudokuGrid) (r c : Fin 9) (v : Int) : (g.set r c v).grid r c = v := by
  simp [SudokuGrid.set]

theorem set_other (g : SudokuGrid) (r c i j : Fin 9) (v : Int) (h : ¬ (i = r ∧ j = c)) :
    (g.set r c v).grid i j = g.grid i j := by
  simp only [SudokuGrid.set, if_neg h]

theorem set_set_restore (g : SudokuGrid) (r c : Fin 9) (v : Int) (h : g.grid r c = 0) :
    (g.set r c v).set r c UnsetValue = g := by
  cases g with
  | mk f =>
    simp only [SudokuGrid.set, UnsetValue, SudokuGrid.mk.injEq]
    funext i j
    by_cases hh : i = r ∧ j = c
    · rw [if_pos hh, hh.1, hh.2]; exact h.symm
    · rw [if_neg hh, if_neg hh]

theorem fillLoop_total (next : SudokuGrid → Option (Bool × SudokuGrid)) (r c : Fin 9)
    (hnext : ∀ x, ∃ b s, next x = some (b, s)) (opts : List Int) (g : SudokuGrid) :
    ∃ b s, fillLoop next r.val c.val opts g = some (b, s) := by
  induction opts generalizing g with
  | nil => exact ⟨false, g, rfl⟩
  | cons v rest ih =>
    obtain ⟨b, s, hs⟩ := hnext (g.set r c v)
    cases b
    · rw [fillLoop_cons_false _ _ _ _ _ _ _ hs]
      exact ih _
    · exact ⟨true, s, fillLoop_cons_true _ _ _ _ _ _ _ hs⟩

theorem fill_total_aux (k : Nat) : ∀ (n : Nat) (g : SudokuGrid), 81 - n ≤ k →
    ∃ b s, g.fill n = some (b, s) := by
  induction k with
  | zero =>
    intro n g hk
    exact ⟨true, g, fill_done g n (by omega)⟩
  | succ k ih =>
    intro n g hk
    by_cases h : n < 81
    · rw [fill_unfold g n h]
      split
      · exact ih (n + 1) g (by omega)
      · exact fillLoop_total _ _ _ (fun x => ih (n + 1) x (by omega)) _ _
    · exact ⟨true, g, fill_done g n (by omega)⟩

theorem fill_total (g : SudokuGrid) (n : Nat) : ∃ b s, g.fill n = some (b, s) :=
  fill_total_aux (81 - n) n g (le_refl _)

theorem isDigit_of_mem_optsF (g : SudokuGrid) (r c : Fin 9) (v : Int) (h : v ∈ optsF g r c) :
    IsDigit v :=
  ((mem_optsF g r c v).1 h).1

/-- Frame of the loop: cells of `g0` holding a digit are never written. -/
theorem fillLoop_frame (next : SudokuGrid → Option (Bool × SudokuGrid)) (r c : Fin 9)
    (g0 : SudokuGrid) (h0 : ¬ IsDigit (g0.grid r c))
    (hnext : ∀ x b s, next x = some (b, s) → Extends x s) (opts : List Int) (g : SudokuGrid)
    (hg : Extends g0 g) (b : Bool) (s : SudokuGrid)
    (hs : fillLoop next r.val c.val opts g = some (b, s)) : Extends g0 s := by
  induction opts generalizing g with
  | nil =>
    rw [fillLoop_nil] at hs
    cases hs
    exact hg
  | cons v rest ih =>
    have hset : ∀ (x : SudokuGrid) (w : Int), Extends g0 x → Extends g0 (x.set r c w) := by
      intro x w hx i j hd
      have hne : ¬ (i = r ∧ j = c) := by
        rintro ⟨rfl, rfl⟩
        exact h0 hd
      rw [set_other _ _ _ _ _ _ hne]
      exact hx i j hd
    have hext : ∀ x y : SudokuGrid, Extends g0 x → Extends x y → Extends g0 y := by
      intro x y hx hy i j hd
      have h1 := hx i j hd
      rw [hy i j (h1 ▸ hd), h1]
    rcases hn : next (g.set r c v) with _ | ⟨b2, g2⟩
    · rw [fillLoop, write_fin] at hs
      simp only [hn] at hs
      cases hs
    · cases b2
      · rw [fillLoop_cons_false _ _ _ _ _ _ _ hn] at hs
        refine ih _ ?_ hs
        exact hset _ _ (hext _ _ (hset _ _ hg) (hnext _ _ _ hn))
      · rw [fillLoop_cons_true _ _ _ _ _ _ _ hn] at hs
        cases hs
        exact hext _ _ (hset _ _ hg) (hnext _ _ _ hn)

theorem fill_frame_aux (k : Nat) : ∀ (n : Nat) (g : SudokuGrid), 81 - n ≤ k →
    ∀ b s, g.fill n = some (b, s) → Extends g s := by
  induction k with
  | zero =>
    intro n g hk b s hs
    rw [fill_done g n (by omega)] at hs
    cases hs
    exact fun _ _ _ => rfl
  | succ k ih =>
    intro n g hk b s hs
    by_cases h : n < 81
    · rw [fill_unfold g n h] at hs
      split at hs
      · exact ih (n + 1) g (by omega) b s hs
      · rename_i hd
        exact fillLoop_frame _ _ _ g hd (fun x b s hx => ih (n + 1) x (by omega) b s hx) _ g
          (fun _ _ _ => rfl) b s hs
    · rw [fill_done g n (by omega)] at hs
      cases hs
      exact fun _ _ _ => rfl

theorem fill_frame (g : SudokuGrid) (n : Nat) (b : Bool) (s : SudokuGrid)
    (hs : g.fill n = some (b, s)) : Extends g s :=
  fill_frame_aux (81 - n) n g (le_refl _) b s hs
theorem std_set (g : SudokuGrid) (r c : Fin 9) (v : Int) (hg : Std g) (hv : 0 ≤ v ∧ v ≤ 9) :
    Std (g.set r c v) := by
  intro i j
  by_cases hh : i = r ∧ j = c
  · rw [hh.1, hh.2, set_same]; exact hv
  · rw [set_other _ _ _ _ _ _ hh]; exact hg i j

theorem unset_of_not_digit (g : SudokuGrid) (hg : Std g) (r c : Fin 9)
    (h : ¬ IsDigit (g.grid r c)) : g.grid r c = 0 := by
  have := hg r c
  simp only [IsDigit] at h
  omega

/-- What the loop of `fill` does on a grid with cells in `0..9` whose cell `(r, c)` is unset,
when the recursive call always returns and hands the grid back unchanged whenever it returns
false: the first option whose recursive call returns true decides the result, and the grid is
back to `g` when there is none. -/
theorem fillLoop_char (next : SudokuGrid → Option (Bool × SudokuGrid)) (r c : Fin 9)
    (g : SudokuGrid) (h0 : g.grid r c = 0) (hstd : Std g)
    (htot : ∀ x, ∃ b s, next x = some (b, s))
    (hres : ∀ x s, Std x → next x = some (false, s) → s = x)
    (opts : List Int) (hopts : ∀ v ∈ opts, IsDigit v) :
    (∃ pre v post s, opts = pre ++ v :: post ∧
        (∀ w ∈ pre, next (g.set r c w) = some (false, g.set r c w)) ∧
        next (g.set r c v) = some (true, s) ∧
        fillLoop next r.val c.val opts g = some (true, s)) ∨
      ((∀ w ∈ opts, next (g.set r c w) = some (false, g.set r c w)) ∧
        fillLoop next r.val c.val opts g = some (false, g)) := by
  induction opts with
  | nil =>
    right
    exact ⟨fun w hw => absurd hw (List.not_mem_nil w), rfl⟩
  | cons v rest ih =>
    have hv : IsDigit v := hopts v (List.mem_cons_self _ _)
    obtain ⟨b, g2, hn⟩ := htot (g.set r c v)
    cases b
    · have hg2 : g2 = g.set r c v :=
        hres _ _ (std_set g r c v hstd ⟨by have := hv.1; omega, hv.2⟩) hn
      have hback : g2.set r c UnsetValue = g := by
        rw [hg2]; exact set_set_restore g r c v h0
      rw [fillLoop_cons_false _ _ _ _ _ _ _ hn, hback]
      rw [hg2] at hn
      rcases ih (fun w hw => hopts w (List.mem_cons_of_mem _ hw)) with
        ⟨pre, w, post, s, he, hpre, hw, hres2⟩ | ⟨hall, hres2⟩
      · left
        refine ⟨v :: pre, w, post, s, by rw [he]; rfl, ?_, hw, hres2⟩
        intro u hu
        rcases List.mem_cons.1 hu with rfl | hu
        · exact hn
        · exact hpre u hu
      · right
        refine ⟨?_, hres2⟩
        intro u hu
        rcases List.mem_cons.1 hu with rfl | hu
        · exact hn
        · exact hall u hu
    · left
      exact ⟨[], v, rest, g2, rfl, fun w hw => absurd hw (List.not_mem_nil w), hn,
        fillLoop_cons_true _ _ _ _ _ _ _ hn⟩

theorem fill_restore_aux (k : Nat) : ∀ (n : Nat) (g : SudokuGrid), 81 - n ≤ k → Std g →
    ∀ s, g.fill n = some (false, s) → s = g := by
  induction k with
  | zero =>
    intro n g hk _ s hs
    rw [fill_done g n (by omega)] at hs
    cases hs
  | succ k ih =>
    intro n g hk hstd s hs
    by_cases h : n < 81
    · rw [fill_unfold g n h] at hs
      split at hs
      · exact ih (n + 1) g (by omega) hstd s hs
      · rename_i hd
        rcases fillLoop_char (fun x => x.fill (n + 1)) (rowIdx n h) (colIdx n h) g
          (unset_of_not_digit g hstd _ _ hd) hstd (fun x => fill_total x (n + 1))
          (fun x s hx hxs => ih (n + 1) x (by omega) hx s hxs) _
          (isDigit_of_mem_optsF g _ _) with ⟨_, _, _, s2, _, _, _, hres⟩ | ⟨_, hres⟩
        · rw [hres] at hs
          cases hs
        · rw [hres] at hs
          cases hs
          rfl
    · rw [fill_done g n (by omega)] at hs
      cases hs

theorem fill_restore (g : SudokuGrid) (n : Nat) (hstd : Std g) (s : SudokuGrid)
    (hs : g.fill n = some (false, s)) : s = g :=
  fill_restore_aux (81 - n) n g (le_refl _) hstd s hs

/-- The loop of `fill` at an unset cell of a grid with cells in `0..9`, with `fill(n + 1)` as
the recursive call. -/
theorem fill_loop_cases (g : SudokuGrid) (n : Nat) (h : n < 81) (hstd : Std g)
    (hd : ¬ IsDigit (g.grid (rowIdx n h) (colIdx n h))) :
    (∃ pre v post s, optsF g (rowIdx n h) (colIdx n h) = pre ++ v :: post ∧
        (∀ w ∈ pre, (g.set (rowIdx n h) (colIdx n h) w).fill (n + 1) =
          some (false, g.set (rowIdx n h) (colIdx n h) w)) ∧
        (g.set (rowIdx n h) (colIdx n h) v).fill (n + 1) = some (true, s) ∧
        g.fill n = some (true, s)) ∨
      ((∀ w ∈ optsF g (rowIdx n h) (colIdx n h),
          (g.set (rowIdx n h) (colIdx n h) w).fill (n + 1) =
            some (false, g.set (rowIdx n h) (colIdx n h) w)) ∧
        g.fill n = some (false, g)) := by
  rw [fill_unfold g n h, if_neg hd]
  exact fillLoop_char (fun x => x.fill (n + 1)) (rowIdx n h) (colIdx n h) g
    (unset_of_not_digit g hstd _ _ hd) hstd (fun x => fill_total x (n + 1))
    (fun x s hx hxs => fill_restore x (n + 1) hx s hxs) _ (isDigit_of_mem_optsF g _ _)
theorem sameGroup_symm (r1 c1 r2 c2 : Fin 9) (h : SameGroup r1 c1 r2 c2) :
    SameGroup r2 c2 r1 c1 := by
  rcases h with h | h | h
  · exact Or.inl h.symm
  · exact Or.inr (Or.inl h.symm)
  · exact Or.inr (Or.inr ⟨h.1.symm, h.2.symm⟩)

theorem no_conflict_set (g : SudokuGrid) (r c : Fin 9) (v : Int) (hg : ¬ Conflict g)
    (hv : Free g r c v) : ¬ Conflict (g.set r c v) := by
  rintro ⟨r1, c1, r2, c2, hne, hgrp, heq, hd⟩
  by_cases h1 : r1 = r ∧ c1 = c
  · obtain ⟨rfl, rfl⟩ := h1
    have h2 : ¬ (r2 = r1 ∧ c2 = c1) := by
      rintro ⟨rfl, rfl⟩
      exact hne rfl
    rw [set_same, set_other _ _ _ _ _ _ h2] at heq
    exact hv.2 r2 c2 hgrp heq.symm
  · by_cases h2 : r2 = r ∧ c2 = c
    · obtain ⟨rfl, rfl⟩ := h2
      rw [set_same, set_other _ _ _ _ _ _ h1] at heq
      exact hv.2 r1 c1 (sameGroup_symm _ _ _ _ hgrp) heq
    · rw [set_other _ _ _ _ _ _ h1] at heq hd
      rw [set_other _ _ _ _ _ _ h2] at heq
      exact hg ⟨r1, c1, r2, c2, hne, hgrp, heq, hd⟩

theorem cellAt_eq (g : SudokuGrid) (n : Nat) (h : n < 81) :
    g.cellAt n = g.grid (rowIdx n h) (colIdx n h) := by
  rw [SudokuGrid.cellAt, dif_pos h]

/-- A successful `fill(n)` on a duplicate-free grid with cells in `0..9` leaves a
duplicate-free grid in which every cell from number `n` on holds a digit. -/
theorem fill_sound_aux (k : Nat) : ∀ (n : Nat) (g : SudokuGrid), 81 - n ≤ k → Std g →
    ¬ Conflict g → ∀ s, g.fill n = some (true, s) →
      ¬ Conflict s ∧ ∀ m, n ≤ m → ∀ hm : m < 81, IsDigit (s.grid (rowIdx m hm) (colIdx m hm)) := by
  induction k with
  | zero =>
    intro n g hk _ hc s hs
    rw [fill_done g n (by omega)] at hs
    cases hs
    exact ⟨hc, fun m hm hm2 => by omega⟩
  | succ k ih =>
    intro n g hk hstd hc s hs
    by_cases h : n < 81
    · by_cases hd : IsDigit (g.grid (rowIdx n h) (colIdx n h))
      · have hs2 := hs
        rw [fill_unfold g n h, if_pos hd] at hs2
        obtain ⟨h1, h2⟩ := ih (n + 1) g (by omega) hstd hc s hs2
        refine ⟨h1, ?_⟩
        intro m hm hm2
        by_cases hmn : m = n
        · subst hmn
          rw [fill_frame g m true s hs _ _ hd]
          exact hd
        · exact h2 m (by omega) hm2
      · rcases fill_loop_cases g n h hstd hd with ⟨pre, v, post, s2, he, _, hv, hres⟩ | ⟨_, hres⟩
        · rw [hres] at hs
          cases hs
          have hmem : v ∈ optsF g (rowIdx n h) (colIdx n h) := by
            rw [he]; simp
          have hfree := (mem_optsF g _ _ v).1 hmem
          have hvd : IsDigit v := hfree.1
          obtain ⟨h1, h2⟩ := ih (n + 1) (g.set (rowIdx n h) (colIdx n h) v) (by omega)
            (std_set g _ _ v hstd ⟨by have := hvd.1; omega, hvd.2⟩)
            (no_conflict_set g _ _ v hc hfree) s hv
          refine ⟨h1, ?_⟩
          intro m hm hm2
          by_cases hmn : m = n
          · subst hmn
            have hset : IsDigit ((g.set (rowIdx m h) (colIdx m h) v).grid (rowIdx m h)
                (colIdx m h)) := by
              rw [set_same]; exact hvd
            rw [fill_frame _ (m + 1) true s hv _ _ hset, set_same]
            exact hvd
          · exact h2 m (by omega) hm2
        · rw [hres] at hs
          cases hs
    · rw [fill_done g n (by omega)] at hs
      cases hs
      exact ⟨hc, fun m hm hm2 => by omega⟩

theorem free_of_completion (g t : SudokuGrid) (ht : Completion g t) (r c : Fin 9)
    (hd : ¬ IsDigit (g.grid r c)) : Free g r c (t.grid r c) := by
  refine ⟨ht.1 r c, ?_⟩
  intro i j hgrp heq
  have hdi : IsDigit (g.grid i j) := heq ▸ ht.1 r c
  have hne : (r, c) ≠ (i, j) := by
    intro he
    cases he
    exact hd hdi
  have hti := ht.2.2 i j hdi
  exact ht.2.1 ⟨r, c, i, j, hne, hgrp, by rw [hti, heq], ht.1 r c⟩

theorem completion_set (g t : SudokuGrid) (ht : Completion g t) (r c : Fin 9) :
    Completion (g.set r c (t.grid r c)) t := by
  refine ⟨ht.1, ht.2.1, ?_⟩
  intro i j hd
  by_cases hh : i = r ∧ j = c
  · obtain ⟨rfl, rfl⟩ := hh
    rw [set_same]
  · rw [set_other _ _ _ _ _ _ hh] at hd ⊢
    exact ht.2.2 i j hd

/-- Completeness of `fill`: on a grid with cells in `0..9` that has a valid completion the call
returns true, from whichever cell it starts. -/
theorem fill_complete_aux (k : Nat) : ∀ (n : Nat) (g t : SudokuGrid), 81 - n ≤ k → Std g →
    Completion g t → ∃ s, g.fill n = some (true, s) := by
  induction k with
  | zero =>
    intro n g t hk _ _
    exact ⟨g, fill_done g n (by omega)⟩
  | succ k ih =>
    intro n g t hk hstd ht
    by_cases h : n < 81
    · by_cases hd : IsDigit (g.grid (rowIdx n h) (colIdx n h))
      · rw [fill_unfold g n h, if_pos hd]
        exact ih (n + 1) g t (by omega) hstd ht
      · rcases fill_loop_cases g n h hstd hd with ⟨_, _, _, s2, _, _, _, hres⟩ | ⟨hall, _⟩
        · exact ⟨s2, hres⟩
        · exfalso
          have hfree := free_of_completion g t ht _ _ hd
          have hmem := (mem_optsF g _ _ _).2 hfree
          have hfail := hall _ hmem
          have hvd : IsDigit (t.grid (rowIdx n h) (colIdx n h)) := hfree.1
          obtain ⟨s, hs⟩ := ih (n + 1) (g.set (rowIdx n h) (colIdx n h)
            (t.grid (rowIdx n h) (colIdx n h))) t (by omega)
            (std_set g _ _ _ hstd ⟨by have := hvd.1; omega, hvd.2⟩) (completion_set g t ht _ _)
          rw [hfail] at hs
          cases hs
    · exact ⟨g, fill_done g n (by omega)⟩

theorem fill_complete (g t : SudokuGrid) (n : Nat) (hstd : Std g) (ht : Completion g t) :
    ∃ s, g.fill n = some (true, s) :=
  fill_complete_aux (81 - n) n g t (le_refl _) hstd ht

theorem lexFrom_of_eq (n : Nat) (s t : SudokuGrid) (he : s.cellAt n = t.cellAt n)
    (hl : LexFrom (n + 1) s t) : LexFrom n s t := by
  rcases hl with hl | ⟨m, hm1, hm2, hm3, hm4⟩
  · left
    intro k hk1 hk2
    by_cases hkn : k = n
    · rw [hkn]; exact he
    · exact hl k (by omega) hk2
  · right
    refine ⟨m, by omega, hm2, ?_, hm4⟩
    intro k hk1 hk2
    by_cases hkn : k = n
    · rw [hkn]; exact he
    · exact hm3 k (by omega) hk2

theorem lexFrom_of_lt (n : Nat) (h : n < 81) (s t : SudokuGrid) (hlt : s.cellAt n < t.cellAt n) :
    LexFrom n s t :=
  Or.inr ⟨n, le_refl _, h, fun k hk1 hk2 => by omega, hlt⟩

/-- The grid a successful `fill(n)` leaves is, on the cells from number `n` on, no larger in
lexicographic order than any valid completion of the grid it started from. -/
theorem fill_lexmin_aux (k : Nat) : ∀ (n : Nat) (g t : SudokuGrid), 81 - n ≤ k → Std g →
    Completion g t → ∀ s, g.fill n = some (true, s) → LexFrom n s t := by
  induction k with
  | zero =>
    intro n g t hk _ _ s _
    exact Or.inl (fun k hk1 hk2 => by omega)
  | succ k ih =>
    intro n g t hk hstd ht s hs
    by_cases h : n < 81
    · by_cases hd : IsDigit (g.grid (rowIdx n h) (colIdx n h))
      · have hs2 := hs
        rw [fill_unfold g n h, if_pos hd] at hs2
        refine lexFrom_of_eq n s t ?_ (ih (n + 1) g t (by omega) hstd ht s hs2)
        rw [cellAt_eq s n h, cellAt_eq t n h, fill_frame g n true s hs _ _ hd, ht.2.2 _ _ hd]
      · rcases fill_loop_cases g n h hstd hd with
          ⟨pre, v, post, s2, he, hpre, hv, hres⟩ | ⟨_, hres⟩
        · rw [hres] at hs
          cases hs
          have hfree := free_of_completion g t ht _ _ hd
          have hmem := (mem_optsF g _ _ _).2 hfree
          have hvd : IsDigit (t.grid (rowIdx n h) (colIdx n h)) := hfree.1
          have hmemv : v ∈ optsF g (rowIdx n h) (colIdx n h) := by
            rw [he]; simp
          have hvd2 : IsDigit v := isDigit_of_mem_optsF g _ _ v hmemv
          have hsv : s.cellAt n = v := by
            have hset : IsDigit ((g.set (rowIdx n h) (colIdx n h) v).grid (rowIdx n h)
                (colIdx n h)) := by
              rw [set_same]; exact hvd2
            rw [cellAt_eq s n h, fill_frame _ (n + 1) true s hv _ _ hset, set_same]
          have hnotpre : t.grid (rowIdx n h) (colIdx n h) ∉ pre := by
            intro hp
            have hfail := hpre _ hp
            obtain ⟨s3, hs3⟩ := fill_complete (g.set (rowIdx n h) (colIdx n h)
              (t.grid (rowIdx n h) (colIdx n h))) t (n + 1)
              (std_set g _ _ _ hstd ⟨by have := hvd.1; omega, hvd.2⟩) (completion_set g t ht _ _)
            rw [hfail] at hs3
            cases hs3
          rw [he] at hmem
          rcases List.mem_append.1 hmem with hp | hp
          · exact absurd hp hnotpre
          · rcases List.mem_cons.1 hp with hp | hp
            · refine lexFrom_of_eq n s t ?_ ?_
              · rw [hsv, cellAt_eq t n h, hp]
              · have hc := completion_set g t ht (rowIdx n h) (colIdx n h)
                rw [hp] at hc
                exact ih (n + 1) _ t (by omega)
                  (std_set g _ _ _ hstd ⟨by have := hvd2.1; omega, hvd2.2⟩) hc s hv
            · refine lexFrom_of_lt n h s t ?_
              rw [hsv, cellAt_eq t n h]
              have hsorted := optsF_sorted g (rowIdx n h) (colIdx n h)
              rw [he, List.pairwise_append] at hsorted
              exact List.rel_of_pairwise_cons hsorted.2.1 hp
        · rw [hres] at hs
          cases hs
    · exact Or.inl (fun k hk1 hk2 => by omega)
theorem grid_ext (s t : SudokuGrid) (h : ∀ i j, s.grid i j = t.grid i j) : s = t := by
  cases s; cases t
  simp only [SudokuGrid.mk.injEq]
  funext i j
  exact h i j

theorem toRows_getD (g : SudokuGrid) (i j : Fin 9) :
    (g.toRows.getD i.val []).getD j.val 0 = g.grid i j := by
  simp [SudokuGrid.toRows, List.getD_eq_getElem?_getD]

theorem toRows_inj (s t : SudokuGrid) (h : s.toRows = t.toRows) : s = t := by
  apply grid_ext
  intro i j
  rw [← toRows_getD s i j, ← toRows_getD t i j, h]

theorem copy_inner (g acc : SudokuGrid) (i : Fin 9) (js : List (Fin 9)) (a b : Fin 9) :
    (js.foldl (fun acc2 j => acc2.set i j (g.grid i j)) acc).grid a b =
      if a = i ∧ b ∈ js then g.grid a b else acc.grid a b := by
  induction js generalizing acc with
  | nil => simp
  | cons j rest ih =>
    rw [List.foldl_cons, ih]
    by_cases h1 : a = i ∧ b ∈ rest
    · rw [if_pos h1, if_pos ⟨h1.1, List.mem_cons_of_mem _ h1.2⟩]
    · rw [if_neg h1]
      by_cases h2 : a = i ∧ b = j
      · rw [if_pos ⟨h2.1, h2.2 ▸ List.mem_cons_self _ _⟩, h2.1, h2.2, set_same]
      · rw [set_other _ _ _ _ _ _ h2, if_neg]
        rintro ⟨h3, h4⟩
        rcases List.mem_cons.1 h4 with h5 | h5
        · exact h2 ⟨h3, h5⟩
        · exact h1 ⟨h3, h5⟩

theorem copy_outer (g acc : SudokuGrid) (is : List (Fin 9)) (a b : Fin 9) :
    (is.foldl (fun acc i => (List.finRange 9).foldl
      (fun acc2 j => acc2.set i j (g.grid i j)) acc) acc).grid a b =
      if a ∈ is then g.grid a b else acc.grid a b := by
  induction is generalizing acc with
  | nil => simp
  | cons i rest ih =>
    rw [List.foldl_cons, ih, copy_inner]
    by_cases h1 : a ∈ rest
    · rw [if_pos h1, if_pos (List.mem_cons_of_mem _ h1)]
    · rw [if_neg h1]
      by_cases h2 : a = i
      · rw [if_pos ⟨h2, List.mem_finRange b⟩, if_pos (h2 ▸ List.mem_cons_self _ _)]
      · rw [if_neg (fun h => h2 h.1), if_neg]
        intro h3
        rcases List.mem_cons.1 h3 with h4 | h4
        · exact h2 h4
        · exact h1 h4

theorem copy_eq (g : SudokuGrid) : g.copy = g := by
  apply grid_ext
  intro i j
  rw [SudokuGrid.copy, copy_outer, if_pos (List.mem_finRange i)]

theorem solve_ok_iff (g s : SudokuGrid) :
    g.solve = some (Except.ok s) ↔ g.fill 0 = some (true, s) := by
  rw [SudokuGrid.solve, copy_eq]
  rcases h : g.fill 0 with _ | ⟨b, x⟩
  · simp
  · cases b <;> simp

theorem solve_error_iff (g : SudokuGrid) (e : GridError) :
    g.solve = some (Except.error e) ↔ e = GridError.unsolvable ∧ ∃ s, g.fill 0 = some (false, s) := by
  rw [SudokuGrid.solve, copy_eq]
  rcases h : g.fill 0 with _ | ⟨b, x⟩
  · simp
  · cases b
    · simp only [Option.some.injEq, Except.error.injEq, Prod.mk.injEq, true_and, exists_eq',
        and_true]
      exact eq_comm
    · simp

theorem solve_total (g : SudokuGrid) :
    g.solve = some (Except.error GridError.unsolvable) ∨ ∃ s, g.solve = some (Except.ok s) := by
  obtain ⟨b, s, hs⟩ := fill_total g 0
  cases b
  · left
    exact (solve_error_iff g _).2 ⟨rfl, s, hs⟩
  · right
    exact ⟨s, (solve_ok_iff g s).2 hs⟩

theorem rowIdx_mk (i j : Fin 9) (h : 9 * i.val + j.val < 81) : rowIdx (9 * i.val + j.val) h = i := by
  apply Fin.ext
  simp only [rowIdx]
  omega

theorem colIdx_mk (i j : Fin 9) (h : 9 * i.val + j.val < 81) : colIdx (9 * i.val + j.val) h = j := by
  apply Fin.ext
  simp only [colIdx]
  omega

theorem cellAt_mk (g : SudokuGrid) (i j : Fin 9) : g.cellAt (9 * i.val + j.val) = g.grid i j := by
  have h : 9 * i.val + j.val < 81 := by omega
  rw [cellAt_eq g _ h, rowIdx_mk, colIdx_mk]

theorem lexLE_of_lexFrom (s t : SudokuGrid) (h : LexFrom 0 s t) : LexLE s t := by
  rcases h with h | ⟨m, _, hm2, hm3, hm4⟩
  · left
    apply grid_ext
    intro i j
    rw [← cellAt_mk s i j, ← cellAt_mk t i j]
    exact h _ (Nat.zero_le _) (by omega)
  · right
    exact ⟨m, hm2, fun k hk => hm3 k (Nat.zero_le _) hk, hm4⟩

theorem solve_sound (g s : SudokuGrid) (hstd : Std g) (hc : ¬ Conflict g)
    (hs : g.solve = some (Except.ok s)) : Completion g s := by
  rw [solve_ok_iff] at hs
  obtain ⟨h1, h2⟩ := fill_sound_aux 81 0 g (by omega) hstd hc s hs
  refine ⟨?_, h1, fill_frame g 0 true s hs⟩
  intro i j
  have h : 9 * i.val + j.val < 81 := by omega
  have := h2 (9 * i.val + j.val) (Nat.zero_le _) h
  rwa [rowIdx_mk, colIdx_mk] at this

theorem conflict_of_extends (g s : SudokuGrid) (he : Extends g s) (hc : Conflict g) :
    Conflict s := by
  obtain ⟨r1, c1, r2, c2, hne, hgrp, heq, hd⟩ := hc
  have hd2 : IsDigit (g.grid r2 c2) := heq ▸ hd
  refine ⟨r1, c1, r2, c2, hne, hgrp, ?_, ?_⟩
  · rw [he r1 c1 hd, he r2 c2 hd2, heq]
  · rw [he r1 c1 hd]; exact hd

theorem solveTest0_solve : solveTest0.solve = some (Except.ok solveTest0Solved) := by
  have h : solvedRows solveTest0.solve = some solveTest0Expected := by
    decide!
  rcases hs : solveTest0.solve with _ | ⟨e | s⟩
  · rw [hs] at h; cases h
  · rw [hs] at h; cases h
  · rw [hs] at h
    simp only [solvedRows, Option.some.injEq] at h
    have h2 : solveTest0Solved.toRows = solveTest0Expected := by decide
    rw [toRows_inj s solveTest0Solved (h.trans h2.symm)]

theorem conflictingGivens_solve :
    conflictingGivens.solve = some (Except.ok conflictingGivensFilled) := by
  have h : solvedRows conflictingGivens.solve = some conflictingGivensFilled.toRows := by
    decide!
  rcases hs : conflictingGivens.solve with _ | ⟨e | s⟩
  · rw [hs] at h; cases h
  · rw [hs] at h; cases h
  · rw [hs] at h
    simp only [solvedRows, Option.some.injEq] at h
    rw [toRows_inj s conflictingGivensFilled h]
theorem setRowLoop_spec (i : Fin 9) (rowText : GoString) (hlen : rowText.length = 9)
    (js : List (Fin 9)) : ∀ g : SudokuGrid,
    ∃ s, g.setRowLoop i.val rowText (js.map Fin.val) = some s ∧
      ∀ a b : Fin 9, s.grid a b =
        if a = i ∧ b ∈ js then runeToInt ((rowText.getD b.val 0).val : Int) else g.grid a b := by
  induction js with
  | nil =>
    intro g
    exact ⟨g, rfl, fun a b => by simp⟩
  | cons j rest ih =>
    intro g
    have hj : j.val < rowText.length := by rw [hlen]; exact j.isLt
    have hget : rowText[j.val]? = some (rowText.getD j.val 0) := by
      rw [List.getD_eq_getElem _ _ hj, List.getElem?_eq_getElem hj]
    obtain ⟨s, hs, hcell⟩ := ih (g.set i j (runeToInt ((rowText.getD j.val 0).val : Int)))
    refine ⟨s, ?_, ?_⟩
    · rw [List.map_cons, SudokuGrid.setRowLoop, hget]
      simp only [write_fin]
      exact hs
    · intro a b
      rw [hcell]
      by_cases h1 : a = i ∧ b ∈ rest
      · rw [if_pos h1, if_pos ⟨h1.1, List.mem_cons_of_mem _ h1.2⟩]
      · rw [if_neg h1]
        by_cases h2 : a = i ∧ b = j
        · rw [if_pos ⟨h2.1, h2.2 ▸ List.mem_cons_self _ _⟩, h2.1, h2.2, set_same]
        · rw [set_other _ _ _ _ _ _ h2, if_neg]
          rintro ⟨h3, h4⟩
          rcases List.mem_cons.1 h4 with h5 | h5
          · exact h2 ⟨h3, h5⟩
          · exact h1 ⟨h3, h5⟩

theorem setRowsLoop_good (rows : List GoString) (hrows : rows.length = 9) (is : List (Fin 9))
    (hall : ∀ i ∈ is, (rows.getD i.val []).length = 9) : ∀ g : SudokuGrid,
    ∃ s, g.setRowsLoop rows (is.map Fin.val) = some (none, s) ∧
      ∀ a b : Fin 9, s.grid a b =
        if a ∈ is then parsedCell rows a.val b.val else g.grid a b := by
  induction is with
  | nil =>
    intro g
    exact ⟨g, rfl, fun a b => by simp⟩
  | cons i rest ih =>
    intro g
    have hi : i.val < rows.length := by rw [hrows]; exact i.isLt
    have hget : rows[i.val]? = some (rows.getD i.val []) := by
      rw [List.getD_eq_getElem _ _ hi, List.getElem?_eq_getElem hi]
    have hlen := hall i (List.mem_cons_self _ _)
    obtain ⟨g1, hg1, hcell1⟩ := setRowLoop_spec i (rows.getD i.val []) hlen (List.finRange 9) g
    rw [List.map_coe_finRange] at hg1
    obtain ⟨s, hs, hcell⟩ := ih (fun k hk => hall k (List.mem_cons_of_mem _ hk)) g1
    refine ⟨s, ?_, ?_⟩
    · rw [List.map_cons, SudokuGrid.setRowsLoop, hget]
      simp only [hlen, ne_eq, not_true_eq_false, if_false, hg1]
      exact hs
    · intro a b
      rw [hcell]
      by_cases h1 : a ∈ rest
      · rw [if_pos h1, if_pos (List.mem_cons_of_mem _ h1)]
      · rw [if_neg h1, hcell1]
        by_cases h2 : a = i
        · rw [if_pos ⟨h2, List.mem_finRange b⟩, if_pos (h2 ▸ List.mem_cons_self _ _), h2]
          rfl
        · rw [if_neg (fun h => h2 h.1), if_neg]
          intro h3
          rcases List.mem_cons.1 h3 with h4 | h4
          · exact h2 h4
          · exact h1 h4

theorem setRowsLoop_bad (rows : List GoString) (hrows : rows.length = 9) (is : List (Fin 9))
    (hex : ∃ i ∈ is, (rows.getD i.val []).length ≠ 9) : ∀ g : SudokuGrid,
    ∃ s, g.setRowsLoop rows (is.map Fin.val) = some (some GridError.rowLength, s) := by
  induction is with
  | nil =>
    obtain ⟨i, hi, _⟩ := hex
    exact absurd hi (List.not_mem_nil i)
  | cons i rest ih =>
    intro g
    have hi : i.val < rows.length := by rw [hrows]; exact i.isLt
    have hget : rows[i.val]? = some (rows.getD i.val []) := by
      rw [List.getD_eq_getElem _ _ hi, List.getElem?_eq_getElem hi]
    by_cases hlen : (rows.getD i.val []).length = 9
    · obtain ⟨g1, hg1, -⟩ := setRowLoop_spec i (rows.getD i.val []) hlen (List.finRange 9) g
      rw [List.map_coe_finRange] at hg1
      have hex2 : ∃ k ∈ rest, (rows.getD k.val []).length ≠ 9 := by
        obtain ⟨k, hk, hbad⟩ := hex
        rcases List.mem_cons.1 hk with rfl | hk
        · exact absurd hlen hbad
        · exact ⟨k, hk, hbad⟩
      obtain ⟨s, hs⟩ := ih hex2 g1
      refine ⟨s, ?_⟩
      rw [List.map_cons, SudokuGrid.setRowsLoop, hget]
      simp only [hlen, ne_eq, not_true_eq_false, if_false, hg1]
      exact hs
    · refine ⟨g, ?_⟩
      rw [List.map_cons, SudokuGrid.setRowsLoop, hget]
      simp only [ne_eq, hlen, not_false_eq_true, if_true]

theorem rows_all_iff (rows : List GoString) (hrows : rows.length = 9) :
    (∀ row ∈ rows, row.length = 9) ↔ ∀ i ∈ List.finRange 9, (rows.getD i.val []).length = 9 := by
  constructor
  · intro h i _
    have hi : i.val < rows.length := by rw [hrows]; exact i.isLt
    rw [List.getD_eq_getElem _ _ hi]
    exact h _ (List.getElem_mem hi)
  · intro h row hrow
    obtain ⟨n, hn, rfl⟩ := List.getElem_of_mem hrow
    have := h ⟨n, by rw [← hrows]; exact hn⟩ (List.mem_finRange _)
    rwa [List.getD_eq_getElem _ _ hn] at this

theorem setValuesFromStringArray_good (g : SudokuGrid) (rows : List GoString)
    (hrows : rows.length = 9) (hall : ∀ row ∈ rows, row.length = 9) :
    ∃ s, g.setValuesFromStringArray rows = some (none, s) ∧
      ∀ a b : Fin 9, s.grid a b = parsedCell rows a.val b.val := by
  obtain ⟨s, hs, hcell⟩ := setRowsLoop_good rows hrows (List.finRange 9)
    ((rows_all_iff rows hrows).1 hall) g
  rw [List.map_coe_finRange] at hs
  refine ⟨s, ?_, ?_⟩
  · rw [SudokuGrid.setValuesFromStringArray, if_neg (by simp [hrows])]
    exact hs
  · intro a b
    rw [hcell, if_pos (List.mem_finRange a)]

theorem setValuesFromStringArray_bad (g : SudokuGrid) (rows : List GoString)
    (hbad : rows.length ≠ 9 ∨ ∃ row ∈ rows, row.length ≠ 9) :
    ∃ e s, g.setValuesFromStringArray rows = some (some e, s) := by
  by_cases hrows : rows.length = 9
  · have hex : ∃ i ∈ List.finRange 9, (rows.getD i.val []).length ≠ 9 := by
      by_contra hno
      push_neg at hno
      have hall := (rows_all_iff rows hrows).2 hno
      rcases hbad with h | ⟨row, hrow, hlen⟩
      · exact h hrows
      · exact hlen (hall row hrow)
    obtain ⟨s, hs⟩ := setRowsLoop_bad rows hrows (List.finRange 9) hex g
    rw [List.map_coe_finRange] at hs
    refine ⟨GridError.rowLength, s, ?_⟩
    rw [SudokuGrid.setValuesFromStringArray, if_neg (by simp [hrows])]
    exact hs
  · refine ⟨GridError.rowCount, g, ?_⟩
    rw [SudokuGrid.setValuesFromStringArray, if_pos hrows]
theorem mirror_digit (g : SudokuGrid) (i j : Fin 9) (h : IsDigit (g.grid i j)) :
    g.mirror.grid i j = 10 - g.grid i j := by
  simp only [SudokuGrid.mirror]
  rw [if_pos h]

theorem mirror_not_digit (g : SudokuGrid) (i j : Fin 9) (h : ¬ IsDigit (g.grid i j)) :
    g.mirror.grid i j = g.grid i j := by
  simp only [SudokuGrid.mirror]
  rw [if_neg h]

theorem mirror_isDigit_iff (g : SudokuGrid) (i j : Fin 9) :
    IsDigit (g.mirror.grid i j) ↔ IsDigit (g.grid i j) := by
  by_cases h : IsDigit (g.grid i j)
  · rw [mirror_digit g i j h]
    simp only [IsDigit] at h ⊢
    constructor <;> intro _ <;> omega
  · rw [mirror_not_digit g i j h]

theorem mirror_std (g : SudokuGrid) (hg : Std g) : Std g.mirror := by
  intro i j
  have := hg i j
  by_cases h : IsDigit (g.grid i j)
  · rw [mirror_digit g i j h]
    simp only [IsDigit] at h
    omega
  · rw [mirror_not_digit g i j h]
    exact this

theorem mirror_completion (g t : SudokuGrid) (ht : Completion g t) :
    Completion g.mirror t.mirror := by
  obtain ⟨hfull, hconf, hext⟩ := ht
  refine ⟨?_, ?_, ?_⟩
  · intro i j
    exact (mirror_isDigit_iff t i j).2 (hfull i j)
  · rintro ⟨r1, c1, r2, c2, hne, hgrp, heq, hd⟩
    rw [mirror_digit t _ _ (hfull r1 c1), mirror_digit t _ _ (hfull r2 c2)] at heq
    exact hconf ⟨r1, c1, r2, c2, hne, hgrp, by omega, hfull r1 c1⟩
  · intro i j hd
    have hd2 := (mirror_isDigit_iff g i j).1 hd
    rw [mirror_digit g i j hd2, mirror_digit t i j (hfull i j), hext i j hd2]

theorem mirror_cellAt (t : SudokuGrid) (ht : Full t) (k : Nat) (hk : k < 81) :
    t.mirror.cellAt k = 10 - t.cellAt k := by
  rw [cellAt_eq _ k hk, cellAt_eq _ k hk, mirror_digit t _ _ (ht _ _)]

/-- When the search on the mirrored grid returns the mirror image of what the search on the
grid returns, that result is the only valid completion. -/
theorem completion_unique_of_mirror (g s : SudokuGrid) (hstd : Std g) (hc : ¬ Conflict g)
    (hs : g.solve = some (Except.ok s)) (hm : g.mirror.solve = some (Except.ok s.mirror)) :
    ∀ u, Completion g u → u = s := by
  intro u hu
  have hsc := solve_sound g s hstd hc hs
  have h1 := fill_lexmin_aux 81 0 g u (by omega) hstd hu s ((solve_ok_iff g s).1 hs)
  have h2 := fill_lexmin_aux 81 0 g.mirror u.mirror (by omega) (mirror_std g hstd)
    (mirror_completion g u hu) s.mirror ((solve_ok_iff _ _).1 hm)
  rcases h1 with h1 | ⟨m, -, hm2, hm3, hm4⟩
  · apply grid_ext
    intro i j
    rw [← cellAt_mk s i j, ← cellAt_mk u i j]
    exact (h1 _ (Nat.zero_le _) (by omega)).symm
  · exfalso
    rcases h2 with h2 | ⟨k, -, hk2, hk3, hk4⟩
    · have := h2 m (Nat.zero_le _) hm2
      rw [mirror_cellAt s hsc.1 m hm2, mirror_cellAt u hu.1 m hm2] at this
      omega
    · rw [mirror_cellAt s hsc.1 k hk2, mirror_cellAt u hu.1 k hk2] at hk4
      rcases Nat.lt_trichotomy m k with hlt | heq | hgt
      · have := hk3 m (Nat.zero_le _) hlt
        rw [mirror_cellAt s hsc.1 m hm2, mirror_cellAt u hu.1 m hm2] at this
        omega
      · subst heq
        omega
      · have := hm3 k (Nat.zero_le _) hgt
        omega

theorem solveTest0_mirror_solve :
    solveTest0.mirror.solve = some (Except.ok solveTest0Solved.mirror) := by
  have h : solvedRows solveTest0.mirror.solve = some solveTest0Solved.mirror.toRows := by
    decide!
  rcases hs : solveTest0.mirror.solve with _ | ⟨e | s⟩
  · rw [hs] at h; cases h
  · rw [hs] at h; cases h
  · rw [hs] at h
    simp only [solvedRows, Option.some.injEq] at h
    rw [toRows_inj s solveTest0Solved.mirror h]

theorem solveTest0_unique : ∀ u, Completion solveTest0 u → u = solveTest0Solved :=
  completion_unique_of_mirror solveTest0 solveTest0Solved (by unfold Std; decide)
    ((validate_true_iff _).1 (by decide)) solveTest0_solve solveTest0_mirror_solve
/-- C1: for every 9x9 grid of integers, `validate` returns false exactly when two distinct
cells of one row, one column or one 3x3 sub-grid hold the same value `v` with `1 <= v <= 9`, and
it returns true otherwise; a cell holding 0 is never part of such a pair. -/
theorem validate_false_iff_duplicate (g : SudokuGrid) :
    (g.validate = some false ↔
      ∃ r1 c1 r2 c2 : Fin 9, (r1, c1) ≠ (r2, c2) ∧
        (r1 = r2 ∨ c1 = c2 ∨ (r1.val / 3 = r2.val / 3 ∧ c1.val / 3 = c2.val / 3)) ∧
        g.grid r1 c1 = g.grid r2 c2 ∧ 1 ≤ g.grid r1 c1 ∧ g.grid r1 c1 ≤ 9) ∧
      (g.validate = some true ↔
        ¬ ∃ r1 c1 r2 c2 : Fin 9, (r1, c1) ≠ (r2, c2) ∧
          (r1 = r2 ∨ c1 = c2 ∨ (r1.val / 3 = r2.val / 3 ∧ c1.val / 3 = c2.val / 3)) ∧
          g.grid r1 c1 = g.grid r2 c2 ∧ 1 ≤ g.grid r1 c1 ∧ g.grid r1 c1 ≤ 9) :=
  ⟨validate_false_iff g, validate_true_iff g⟩

/-- C2: for every grid with cells in `0..9` on which `validate` is true, a grid returned by
`solve` has every cell in `1..9` and passes `validate`. -/
theorem solve_result_full_and_valid (g s : SudokuGrid)
    (hcells : ∀ i j : Fin 9, 0 ≤ g.grid i j ∧ g.grid i j ≤ 9) (hvalid : g.validate = some true)
    (hsolve : g.solve = some (Except.ok s)) :
    (∀ i j : Fin 9, 1 ≤ s.grid i j ∧ s.grid i j ≤ 9) ∧ s.validate = some true := by
  have h := solve_sound g s hcells ((validate_true_iff g).1 hvalid) hsolve
  exact ⟨h.1, (validate_true_iff s).2 h.2.1⟩

/-- C3: completeness of the search.  For every grid with cells in `0..9` that has a valid
completion (a fully filled grid without a duplicate in any row, column or sub-grid that agrees
with it on every given), `solve` returns a grid and does not return the unsolvable error. -/
theorem solve_succeeds_of_completion (g t : SudokuGrid)
    (hcells : ∀ i j : Fin 9, 0 ≤ g.grid i j ∧ g.grid i j ≤ 9) (ht : Completion g t) :
    (∃ s, g.solve = some (Except.ok s)) ∧
      g.solve ≠ some (Except.error GridError.unsolvable) := by
  obtain ⟨s, hs⟩ := fill_complete g t 0 hcells ht
  have h := (solve_ok_iff g s).2 hs
  refine ⟨⟨s, h⟩, ?_⟩
  rw [h]
  simp

/-- C4: for every grid and every cell holding a value in `1..9`, a grid returned by `solve`
holds the identical value at that cell. -/
theorem solve_preserves_givens (g s : SudokuGrid) (r c : Fin 9)
    (hgiven : 1 ≤ g.grid r c ∧ g.grid r c ≤ 9) (hsolve : g.solve = some (Except.ok s)) :
    s.grid r c = g.grid r c :=
  fill_frame g 0 true s ((solve_ok_iff g s).1 hsolve) r c hgiven

/-- C5 as stated fails: `conflictingGivens` has cells in `0..9` and givens that conflict
(`validate` is false), yet `solve` returns a grid for it instead of the unsolvable error. -/
theorem solve_conflicting_givens_returns_grid :
    (∀ i j : Fin 9, 0 ≤ conflictingGivens.grid i j ∧ conflictingGivens.grid i j ≤ 9) ∧
      conflictingGivens.validate = some false ∧
      conflictingGivens.solve = some (Except.ok conflictingGivensFilled) ∧
      conflictingGivens.solve ≠ some (Except.error GridError.unsolvable) := by
  refine ⟨by decide, by decide, conflictingGivens_solve, ?_⟩
  rw [conflictingGivens_solve]
  simp

/-- C5 amended: for every grid with cells in `0..9` whose givens conflict, `solve` never returns
a duplicate-free grid: it fails with the unsolvable error, or it returns a grid that keeps
every given and on which `validate` is false. -/
theorem solve_of_conflicting_givens (g : SudokuGrid)
    (_hcells : ∀ i j : Fin 9, 0 ≤ g.grid i j ∧ g.grid i j ≤ 9)
    (hinvalid : g.validate = some false) :
    g.solve = some (Except.error GridError.unsolvable) ∨
      ∃ s, g.solve = some (Except.ok s) ∧
        (∀ i j : Fin 9, 1 ≤ g.grid i j ∧ g.grid i j ≤ 9 → s.grid i j = g.grid i j) ∧
        s.validate = some false := by
  rcases solve_total g with h | ⟨s, hs⟩
  · exact Or.inl h
  · right
    have he := fill_frame g 0 true s ((solve_ok_iff g s).1 hs)
    exact ⟨s, hs, he,
      (validate_false_iff s).2 (conflict_of_extends g s he ((validate_false_iff g).1 hinvalid))⟩

/-- C6: for every grid with cells in `0..9` on which `validate` is true and which has a valid
completion, `solve` returns the valid completion that is smallest in lexicographic order of the
81 cells read row-major; when the completion is unique it is the one returned; and the first
case of `solveTests`, whose completion is unique, is solved to the grid the test expects. -/
theorem solve_returns_least_completion (g t : SudokuGrid)
    (hcells : ∀ i j : Fin 9, 0 ≤ g.grid i j ∧ g.grid i j ≤ 9) (hvalid : g.validate = some true)
    (ht : Completion g t) :
    (∃ s, g.solve = some (Except.ok s) ∧ Completion g s ∧ ∀ u, Completion g u → LexLE s u) ∧
      ((∀ u, Completion g u → u = t) → g.solve = some (Except.ok t)) ∧
      (∀ u, Completion solveTest0 u → u = solveTest0Solved) ∧
      solveTest0.solve = some (Except.ok solveTest0Solved) := by
  obtain ⟨s, hs⟩ := fill_complete g t 0 hcells ht
  have hsolve := (solve_ok_iff g s).2 hs
  have hcomp := solve_sound g s hcells ((validate_true_iff g).1 hvalid) hsolve
  refine ⟨⟨s, hsolve, hcomp, ?_⟩, ?_, solveTest0_unique, solveTest0_solve⟩
  · intro u hu
    exact lexLE_of_lexFrom s u (fill_lexmin_aux 81 0 g u (by omega) hcells hu s hs)
  · intro huniq
    rw [← huniq s hcomp]
    exact hsolve

/-- C7: for every grid and every `r`, `c` in `0..8`, `getCellOptions(r, c)` returns a strictly
ascending list whose members are exactly the digits `d` in `1..9` that occur in no cell of row
`r`, no cell of column `c` and no cell of the 3x3 sub-grid containing `(r, c)`. -/
theorem getCellOptions_spec (g : SudokuGrid) (r c : Fin 9) :
    ∃ opts, g.getCellOptions r.val c.val = some opts ∧
      opts.Pairwise (fun a b => a < b) ∧
      ∀ d : Int, d ∈ opts ↔
        (1 ≤ d ∧ d ≤ 9) ∧ (∀ j : Fin 9, g.grid r j ≠ d) ∧ (∀ i : Fin 9, g.grid i c ≠ d) ∧
          ∀ i j : Fin 9, i.val / 3 = r.val / 3 → j.val / 3 = c.val / 3 → g.grid i j ≠ d := by
  refine ⟨optsF g r c, getCellOptions_fin g r c, optsF_sorted g r c, ?_⟩
  intro d
  rw [mem_optsF]
  constructor
  · rintro ⟨hd, hall⟩
    exact ⟨hd, fun j => hall r j (Or.inl rfl), fun i => hall i c (Or.inr (Or.inl rfl)),
      fun i j hi hj => hall i j (Or.inr (Or.inr ⟨hi.symm, hj.symm⟩))⟩
  · rintro ⟨hd, hrow, hcol, hsub⟩
    refine ⟨hd, ?_⟩
    intro i j hgrp
    rcases hgrp with h | h | h
    · rw [← h]; exact hrow j
    · rw [← h]; exact hcol i
    · exact hsub i j h.1.symm h.2.symm

theorem solveTest0_completion : Completion solveTest0 solveTest0Solved := by
  refine ⟨by unfold Full; decide, ?_, by unfold Extends; decide⟩
  exact (validate_true_iff _).1 (by decide)

/-- Witness for C2 on the first case of `solveTests`. -/
theorem solve_result_full_and_valid_witness :
    (∀ i j : Fin 9, 1 ≤ solveTest0Solved.grid i j ∧ solveTest0Solved.grid i j ≤ 9) ∧
      solveTest0Solved.validate = some true :=
  solve_result_full_and_valid solveTest0 solveTest0Solved (by decide) (by decide)
    solveTest0_solve

/-- Witness for C3 on the first case of `solveTests`. -/
theorem solve_succeeds_of_completion_witness :
    (∃ s, solveTest0.solve = some (Except.ok s)) ∧
      solveTest0.solve ≠ some (Except.error GridError.unsolvable) :=
  solve_succeeds_of_completion solveTest0 solveTest0Solved (by decide) solveTest0_completion

/-- Witness for C4: the given 7 at row 0, column 4 of the first case of `solveTests`. -/
theorem solve_preserves_givens_witness :
    solveTest0.grid 0 4 = 7 ∧ solveTest0Solved.grid 0 4 = solveTest0.grid 0 4 :=
  ⟨by decide, solve_preserves_givens solveTest0 solveTest0Solved 0 4 (by decide)
    solveTest0_solve⟩

/-- Witness for the amended C5 on `conflictingGivens`. -/
theorem solve_of_conflicting_givens_witness :
    conflictingGivens.solve = some (Except.error GridError.unsolvable) ∨
      ∃ s, conflictingGivens.solve = some (Except.ok s) ∧
        (∀ i j : Fin 9, 1 ≤ conflictingGivens.grid i j ∧ conflictingGivens.grid i j ≤ 9 →
          s.grid i j = conflictingGivens.grid i j) ∧
        s.validate = some false :=
  solve_of_conflicting_givens conflictingGivens (by decide) (by decide)

/-- Witness for C6 on the first case of `solveTests`. -/
theorem solve_returns_least_completion_witness :
    (∃ s, solveTest0.solve = some (Except.ok s) ∧ Completion solveTest0 s ∧
        ∀ u, Completion solveTest0 u → LexLE s u) ∧
      ((∀ u, Completion solveTest0 u → u = solveTest0Solved) →
        solveTest0.solve = some (Except.ok solveTest0Solved)) ∧
      (∀ u, Completion solveTest0 u → u = solveTest0Solved) ∧
      solveTest0.solve = some (Except.ok solveTest0Solved) :=
  solve_returns_least_completion solveTest0 solveTest0Solved (by decide) (by decide)
    solveTest0_completion
theorem fmtD_digit (v : Int) (h : 0 ≤ v ∧ v ≤ 9) :
    fmtD v = [(⟨(48 + v.toNat) % 256, Nat.mod_lt _ (by decide)⟩ : Byte)] := by
  obtain ⟨h0, h9⟩ := h
  interval_cases v <;> decide

theorem plainRow_eq (g : SudokuGrid) (hstd : Std g) (i : Fin 9) :
    g.plainRow i = g.digitLine i ++ [10] := by
  simp only [SudokuGrid.plainRow, fmtD_digit _ (hstd i _), SudokuGrid.digitLine]
  rfl

theorem toString_plain (g : SudokuGrid) (hstd : Std g) :
    g.toString false = g.digitLines.flatMap fun l => l ++ [10] := by
  simp only [SudokuGrid.toString, SudokuGrid.digitLines, List.ofFn_eq_map, Bool.false_eq_true,
    if_false, List.nil_append, plainRow_eq g hstd, List.flatMap_map]

theorem parsedCell_digitLines (g : SudokuGrid) (hstd : Std g) (a b : Fin 9) :
    parsedCell g.digitLines a.val b.val = g.grid a b := by
  have ha : a.val < g.digitLines.length := by
    rw [SudokuGrid.digitLines, List.length_ofFn]; exact a.isLt
  have hb : b.val < (g.digitLine a).length := by
    rw [SudokuGrid.digitLine, List.length_ofFn]; exact b.isLt
  have h1 : g.digitLines.getD a.val [] = g.digitLine a := by
    rw [List.getD_eq_getElem _ _ ha]
    simp only [SudokuGrid.digitLines, List.getElem_ofFn]
  rw [parsedCell, h1, List.getD_eq_getElem _ _ hb]
  simp only [SudokuGrid.digitLine, List.getElem_ofFn]
  have := hstd a b
  unfold runeToInt UnsetValue
  simp only [Fin.eta]
  split <;> omega

theorem digitLines_shape (g : SudokuGrid) (hstd : Std g) :
    g.digitLines.length = 9 ∧
      ∀ l ∈ g.digitLines, l.length = 9 ∧ ∀ b ∈ l, 48 ≤ b.val ∧ b.val ≤ 57 := by
  refine ⟨by rw [SudokuGrid.digitLines, List.length_ofFn], ?_⟩
  intro l hl
  rw [SudokuGrid.digitLines, List.mem_ofFn] at hl
  obtain ⟨i, rfl⟩ := hl
  simp only [SudokuGrid.digitLine, List.length_ofFn, List.mem_ofFn, Set.mem_range, true_and]
  rintro b ⟨j, rfl⟩
  have := hstd i j
  simp only
  omega

theorem parseSample_parsed :
    (newSudokuGrid.setValuesFromStringArray parseSample).map (fun p => (p.1, p.2.toRows)) =
      some (none, parseSampleGrid.toRows) := by
  decide

/-- The error of `setValuesFromStringArray` in terms of the lengths `len` reports, in bytes. -/
theorem setValues_error_iff_bytes (g : SudokuGrid) (rows : List GoString) :
    ((∃ e s, g.setValuesFromStringArray rows = some (some e, s)) ↔
        (rows.length ≠ 9 ∨ ∃ row ∈ rows, row.length ≠ 9)) ∧
      ((∃ s, g.setValuesFromStringArray rows = some (none, s)) ↔
        (rows.length = 9 ∧ ∀ row ∈ rows, row.length = 9)) := by
  by_cases hgood : rows.length = 9 ∧ ∀ row ∈ rows, row.length = 9
  · obtain ⟨s, hs, -⟩ := setValuesFromStringArray_good g rows hgood.1 hgood.2
    constructor
    · constructor
      · rintro ⟨e, s2, h2⟩
        rw [hs] at h2
        cases h2
      · rintro (h | ⟨row, hrow, hlen⟩)
        · exact absurd hgood.1 h
        · exact absurd (hgood.2 row hrow) hlen
    · exact ⟨fun _ => hgood, fun _ => ⟨s, hs⟩⟩
  · have hbad : rows.length ≠ 9 ∨ ∃ row ∈ rows, row.length ≠ 9 := by
      by_contra hno
      push_neg at hno
      exact hgood hno
    obtain ⟨e, s, hs⟩ := setValuesFromStringArray_bad g rows hbad
    constructor
    · exact ⟨fun _ => hbad, fun _ => ⟨e, s, hs⟩⟩
    · constructor
      · rintro ⟨s2, h2⟩
        rw [hs] at h2
        cases h2
      · intro h
        exact absurd h hgood

/-- C10: round trip.  For every grid with cells in `0..9`, `toString(false)` is nine lines of
nine digit bytes, each followed by a newline, and `setValuesFromStringArray` on those nine
lines, called on any grid, returns no error and makes that grid equal to `g`, whose
`toString(false)` it therefore has. -/
theorem toString_setValues_roundtrip (g h : SudokuGrid)
    (hcells : ∀ i j : Fin 9, 0 ≤ g.grid i j ∧ g.grid i j ≤ 9) :
    ∃ lines : List GoString,
      lines.length = 9 ∧ (∀ l ∈ lines, l.length = 9 ∧ ∀ b ∈ l, 48 ≤ b.val ∧ b.val ≤ 57) ∧
        g.toString false = lines.flatMap (fun l => l ++ [10]) ∧
        h.setValuesFromStringArray lines = some (none, g) ∧
        ∀ s, h.setValuesFromStringArray lines = some (none, s) →
          (∀ i j : Fin 9, s.grid i j = g.grid i j) ∧ s.toString false = g.toString false := by
  have hshape := digitLines_shape g hcells
  obtain ⟨s, hs, hcell⟩ := setValuesFromStringArray_good h g.digitLines hshape.1
    (fun row hrow => (hshape.2 row hrow).1)
  have hsg : s = g := by
    apply grid_ext
    intro a b
    rw [hcell, parsedCell_digitLines g hcells]
  rw [hsg] at hs
  refine ⟨g.digitLines, hshape.1, hshape.2, toString_plain g hcells, hs, ?_⟩
  intro s2 hs2
  rw [hs] at hs2
  cases hs2
  exact ⟨fun _ _ => rfl, rfl⟩

/-- Witness for C10 on the first case of `solveTests`, read back into an empty grid. -/
theorem toString_setValues_roundtrip_witness :
    ∃ lines : List GoString,
      lines.length = 9 ∧ (∀ l ∈ lines, l.length = 9 ∧ ∀ b ∈ l, 48 ≤ b.val ∧ b.val ≤ 57) ∧
        solveTest0.toString false = lines.flatMap (fun l => l ++ [10]) ∧
        newSudokuGrid.setValuesFromStringArray lines = some (none, solveTest0) ∧
        ∀ s, newSudokuGrid.setValuesFromStringArray lines = some (none, s) →
          (∀ i j : Fin 9, s.grid i j = solveTest0.grid i j) ∧
            s.toString false = solveTest0.toString false :=
  toString_setValues_roundtrip solveTest0 newSudokuGrid (by decide)
theorem splitLines_no_newline (l : GoString) (h : (10 : Byte) ∉ l) : splitLines l = [l] := by
  induction l with
  | nil => rfl
  | cons b rest ih =>
    have hb : b ≠ 10 := fun hb => h (hb ▸ List.mem_cons_self _ _)
    have hr : (10 : Byte) ∉ rest := fun hr => h (List.mem_cons_of_mem _ hr)
    rw [splitLines, if_neg hb, ih hr]

theorem splitLines_line (l t : GoString) (h : (10 : Byte) ∉ l) :
    splitLines (l ++ 10 :: t) = l :: splitLines t := by
  induction l with
  | nil =>
    rw [List.nil_append, splitLines, if_pos rfl]
  | cons b rest ih =>
    have hb : b ≠ 10 := fun hb => h (hb ▸ List.mem_cons_self _ _)
    have hr : (10 : Byte) ∉ rest := fun hr => h (List.mem_cons_of_mem _ hr)
    rw [List.cons_append, splitLines, if_neg hb, ih hr]

theorem splitLines_join (ls : List GoString) (t : GoString) (h : ∀ l ∈ ls, (10 : Byte) ∉ l) :
    splitLines ((ls.flatMap fun l => l ++ [10]) ++ t) = ls ++ splitLines t := by
  induction ls with
  | nil => rfl
  | cons l rest ih =>
    rw [List.flatMap_cons, List.append_assoc, List.append_assoc, List.singleton_append,
      splitLines_line l _ (h l (List.mem_cons_self _ _)),
      ih (fun x hx => h x (List.mem_cons_of_mem _ hx)), List.cons_append]

theorem removeSpaces_join (ls : List GoString) (h : ∀ l ∈ ls, (32 : Byte) ∉ l) :
    removeSpaces (ls.flatMap fun l => l ++ [10]) = ls.flatMap fun l => l ++ [10] := by
  rw [removeSpaces, List.filter_eq_self]
  intro b hb
  rw [List.mem_flatMap] at hb
  obtain ⟨l, hl, hbl⟩ := hb
  rcases List.mem_append.1 hbl with hbl | hbl
  · have : b ≠ 32 := fun hc => h l hl (hc ▸ hbl)
    simpa using this
  · rw [List.mem_singleton] at hbl
    rw [hbl]
    decide

theorem digitLines_clean (g : SudokuGrid) (hstd : Std g) :
    ∀ l ∈ g.digitLines, (10 : Byte) ∉ l ∧ (32 : Byte) ∉ l := by
  intro l hl
  have h := (digitLines_shape g hstd).2 l hl
  constructor
  · intro hc
    exact absurd (h.2 _ hc) (by decide)
  · intro hc
    exact absurd (h.2 _ hc) (by decide)

theorem splitLines_toString (g : SudokuGrid) (hstd : Std g) :
    splitLines (removeSpaces (g.toString false)) = g.digitLines ++ [[]] := by
  rw [toString_plain g hstd, removeSpaces_join _ (fun l hl => (digitLines_clean g hstd l hl).2)]
  have := splitLines_join g.digitLines [] (fun l hl => (digitLines_clean g hstd l hl).1)
  rw [List.append_nil] at this
  rw [this]
  rfl

theorem join_dropLast (ls : List GoString) (l : GoString) :
    ((ls ++ [l]).flatMap fun x => x ++ [10]).dropLast = (ls.flatMap fun x => x ++ [10]) ++ l := by
  rw [List.flatMap_append, List.flatMap_singleton, ← List.append_assoc, List.dropLast_concat]

theorem splitLines_toString_dropLast (g : SudokuGrid) (hstd : Std g) :
    splitLines (removeSpaces (g.toString false).dropLast) = g.digitLines := by
  have hne : g.digitLines ≠ [] := by
    intro h
    have := (digitLines_shape g hstd).1
    rw [h] at this
    cases this
  have hclean := digitLines_clean g hstd
  rw [toString_plain g hstd]
  rw [← List.dropLast_append_getLast hne] at hclean ⊢
  rw [join_dropLast]
  have hl := hclean _ (List.mem_append_right _ (List.mem_singleton_self _))
  have hls : ∀ x ∈ g.digitLines.dropLast, (10 : Byte) ∉ x ∧ (32 : Byte) ∉ x :=
    fun x hx => hclean x (List.mem_append_left _ hx)
  have hrs : removeSpaces ((g.digitLines.dropLast.flatMap fun x => x ++ [10]) ++
      g.digitLines.getLast hne) =
      (g.digitLines.dropLast.flatMap fun x => x ++ [10]) ++ g.digitLines.getLast hne := by
    have h1 := removeSpaces_join g.digitLines.dropLast (fun x hx => (hls x hx).2)
    rw [removeSpaces] at h1 ⊢
    rw [List.filter_append, h1, List.filter_eq_self.2]
    intro b hb
    have : b ≠ 32 := fun hc => hl.2 (hc ▸ hb)
    simpa using this
  rw [hrs, splitLines_join _ _ (fun x hx => (hls x hx).1), splitLines_no_newline _ hl.1]

theorem setValuesFromString_toString (g h : SudokuGrid) (hstd : Std g) :
    h.setValuesFromString (g.toString false) = some (some GridError.rowCount, h) := by
  rw [SudokuGrid.setValuesFromString, splitLines_toString g hstd,
    SudokuGrid.setValuesFromStringArray, if_pos]
  rw [List.length_append, (digitLines_shape g hstd).1]
  decide

theorem setValuesFromString_trimmed (g h : SudokuGrid) (hstd : Std g) :
    h.setValuesFromString (g.toString false).dropLast = some (none, g) := by
  rw [SudokuGrid.setValuesFromString, splitLines_toString_dropLast g hstd]
  have hshape := digitLines_shape g hstd
  obtain ⟨s, hs, hcell⟩ := setValuesFromStringArray_good h g.digitLines hshape.1
    (fun row hrow => (hshape.2 row hrow).1)
  have hsg : s = g := by
    apply grid_ext
    intro a b
    rw [hcell, parsedCell_digitLines g hstd]
  rw [hs, hsg]

theorem mem_subGridCells (s r c : Nat) (hc : c < 9) :
    (r, c) ∈ subGridCells s ↔ s = cellToSubGrid r c := by
  simp only [subGridCells, cellToSubGrid, List.mem_flatMap, List.mem_map, List.mem_range,
    Prod.mk.injEq]
  constructor
  · rintro ⟨a, ha, b, hb, h1, h2⟩
    omega
  · intro h
    exact ⟨r % 3, by omega, c % 3, by omega, by omega, by omega⟩
theorem finRange_nine : List.finRange 9 = [0, 1, 2, 3, 4, 5, 6, 7, 8] := by
  decide

theorem digitLine_eq (g : SudokuGrid) (i : Fin 9) :
    g.digitLine i =
      [digitByte (g.grid i 0), digitByte (g.grid i 1), digitByte (g.grid i 2),
        digitByte (g.grid i 3), digitByte (g.grid i 4), digitByte (g.grid i 5),
        digitByte (g.grid i 6), digitByte (g.grid i 7), digitByte (g.grid i 8)] := by
  rw [SudokuGrid.digitLine, List.ofFn_eq_map, finRange_nine]
  rfl

theorem fmtD_digitByte (v : Int) (h : 0 ≤ v ∧ v ≤ 9) : fmtD v = [digitByte v] :=
  fmtD_digit v h

theorem prettyRow_eq (g : SudokuGrid) (hstd : Std g) (i : Fin 9) :
    g.prettyRow i = g.prettyLine i ++ [10] := by
  simp only [SudokuGrid.prettyRow, fmtD_digitByte _ (hstd i _), SudokuGrid.prettyLine]
  rfl

theorem toString_pretty (g : SudokuGrid) (hstd : Std g) :
    g.toString true = g.prettyLines.flatMap fun l => l ++ [10] := by
  simp only [SudokuGrid.toString, if_true, finRange_nine, prettyRow_eq g hstd,
    SudokuGrid.prettyLines, List.flatMap_cons, List.flatMap_nil]
  rfl

theorem digitByte_range (v : Int) (h : 0 ≤ v ∧ v ≤ 9) :
    48 ≤ (digitByte v).val ∧ (digitByte v).val ≤ 57 := by
  simp only [digitByte]
  omega

theorem digitByte_ne (v : Int) (h : 0 ≤ v ∧ v ≤ 9) :
    digitByte v ≠ 124 ∧ digitByte v ≠ 10 := by
  have hr := digitByte_range v h
  constructor
  · intro hc
    rw [hc] at hr
    exact absurd hr (by decide)
  · intro hc
    rw [hc] at hr
    exact absurd hr (by decide)

theorem prettyLine_strip (g : SudokuGrid) (hstd : Std g) (i : Fin 9) :
    (g.prettyLine i).filter (fun b => b ≠ 124) = g.digitLine i := by
  rw [digitLine_eq, SudokuGrid.prettyLine]
  simp [(digitByte_ne _ (hstd i _)).1]

theorem prettyLine_ne_border (g : SudokuGrid) (i : Fin 9) : g.prettyLine i ≠ borderLine := by
  intro h
  have h0 := congrArg List.head? h
  simp [SudokuGrid.prettyLine, borderLine] at h0

theorem prettyLine_shape (g : SudokuGrid) (hstd : Std g) (i : Fin 9) :
    (g.prettyLine i).length = 13 ∧ (10 : Byte) ∉ g.prettyLine i := by
  refine ⟨rfl, ?_⟩
  intro hc
  simp only [SudokuGrid.prettyLine, List.mem_cons, List.mem_singleton, List.not_mem_nil,
    or_false] at hc
  have hne := fun j => (digitByte_ne _ (hstd i j)).2
  rcases hc with hc | hc | hc | hc | hc | hc | hc | hc | hc | hc | hc | hc | hc
  all_goals first
    | exact absurd hc (by decide)
    | exact hne _ hc.symm

theorem prettyLines_strip (g : SudokuGrid) (hstd : Std g) :
    ((g.prettyLines.filter fun l => l ≠ borderLine).map
      fun l => l.filter fun b => b ≠ 124) = g.digitLines := by
  have hd : g.digitLines = [g.digitLine 0, g.digitLine 1, g.digitLine 2, g.digitLine 3,
      g.digitLine 4, g.digitLine 5, g.digitLine 6, g.digitLine 7, g.digitLine 8] := by
    rw [SudokuGrid.digitLines, List.ofFn_eq_map, finRange_nine]
    rfl
  rw [hd, SudokuGrid.prettyLines]
  have hs : ∀ i, List.filter (fun b => !decide (b = 124)) (g.prettyLine i) = g.digitLine i := by
    intro i
    have := prettyLine_strip g hstd i
    simpa using this
  simp [prettyLine_ne_border, hs]
theorem copySt_inner (i : Fin 9) (js : List (Fin 9)) (st : Frame) :
    js.foldl (fun st2 j => copyStep st2 i j) st =
      ⟨st.recv, js.foldl (fun acc2 j => acc2.set i j (st.recv.grid i j)) st.r⟩ := by
  induction js generalizing st with
  | nil => rfl
  | cons j rest ih =>
    rw [List.foldl_cons, List.foldl_cons, ih]
    rfl

theorem copySt_outer (g : SudokuGrid) (is : List (Fin 9)) (st : Frame) (hst : st.recv = g) :
    is.foldl (fun st i => (List.finRange 9).foldl (fun st2 j => copyStep st2 i j) st) st =
      ⟨g, is.foldl (fun acc i => (List.finRange 9).foldl
        (fun acc2 j => acc2.set i j (g.grid i j)) acc) st.r⟩ := by
  induction is generalizing st with
  | nil =>
    cases st
    simp only [List.foldl_nil] at hst ⊢
    rw [hst]
  | cons i rest ih =>
    rw [List.foldl_cons, List.foldl_cons, copySt_inner]
    have hrest := ih ⟨st.recv, (List.finRange 9).foldl
      (fun acc2 j => acc2.set i j (st.recv.grid i j)) st.r⟩ hst
    rw [hrest, hst]

theorem copySt_eq (g : SudokuGrid) : g.copySt = ⟨g, g.copy⟩ := by
  rw [SudokuGrid.copySt, copySt_outer g _ _ rfl]
  rfl

theorem solveSt_eq (g : SudokuGrid) :
    g.solveSt = (g.solve).map fun res => (res, g) := by
  rw [SudokuGrid.solveSt, SudokuGrid.solve, copySt_eq]
  rcases h : g.copy.fill 0 with _ | ⟨b, x⟩
  · rfl
  · cases b <;> rfl

theorem fillLoop_congr (next1 next2 : SudokuGrid → Option (Bool × SudokuGrid))
    (h : ∀ x, next1 x = next2 x) (row col : Nat) (opts : List Int) (g : SudokuGrid) :
    fillLoop next1 row col opts g = fillLoop next2 row col opts g := by
  have : next1 = next2 := funext h
  rw [this]

theorem fillAux_unfold (fuel : Nat) (g : SudokuGrid) (n : Nat) (h : n < 81) :
    SudokuGrid.fillAux (fuel + 1) n g =
      if IsDigit (g.grid (rowIdx n h) (colIdx n h)) then SudokuGrid.fillAux fuel (n + 1) g
      else fillLoop (SudokuGrid.fillAux fuel (n + 1)) (rowIdx n h).val (colIdx n h).val
        (optsF g (rowIdx n h) (colIdx n h)) g := by
  have hr : n / 9 = (rowIdx n h).val := rfl
  have hc : n % 9 = (colIdx n h).val := rfl
  have hn : ¬ n ≥ 81 := by omega
  simp only [SudokuGrid.fillAux, if_neg hn]
  rw [hr, hc, read_fin, getCellOptions_fin]
  simp only
  by_cases hd : IsDigit (g.grid (rowIdx n h) (colIdx n h))
  · have hd2 : g.grid (rowIdx n h) (colIdx n h) ≥ 1 ∧ g.grid (rowIdx n h) (colIdx n h) ≤ 9 := hd
    rw [if_pos hd2, if_pos hd]
  · have hd2 : ¬ (g.grid (rowIdx n h) (colIdx n h) ≥ 1 ∧ g.grid (rowIdx n h) (colIdx n h) ≤ 9) :=
      hd
    rw [if_neg hd2, if_neg hd]
    by_cases hl : (optsF g (rowIdx n h) (colIdx n h)).length = 0
    · rw [if_pos hl, List.length_eq_zero.1 hl]
      rfl
    · rw [if_neg hl]

theorem fillAux_done (fuel : Nat) (g : SudokuGrid) (n : Nat) (h : 81 ≤ n) :
    SudokuGrid.fillAux fuel n g = some (true, g) := by
  cases fuel with
  | zero => rw [SudokuGrid.fillAux, if_pos h]
  | succ k => rw [SudokuGrid.fillAux, if_pos h]

/-- More fuel than the `81 - n` nested calls `fill(n)` can make changes nothing. -/
theorem fillAux_eq_fill (fuel : Nat) : ∀ (n : Nat) (g : SudokuGrid), 81 - n ≤ fuel →
    SudokuGrid.fillAux fuel n g = g.fill n := by
  induction fuel with
  | zero =>
    intro n g hk
    rw [fillAux_done 0 g n (by omega), fill_done g n (by omega)]
  | succ k ih =>
    intro n g hk
    by_cases h : n < 81
    · rw [fillAux_unfold k g n h, fill_unfold g n h, ih (n + 1) g (by omega)]
      rw [fillLoop_congr (SudokuGrid.fillAux k (n + 1)) (fun x => x.fill (n + 1))
        (fun x => ih (n + 1) x (by omega))]
    · rw [fillAux_done _ g n (by omega), fill_done g n (by omega)]

/-- With less fuel than cells left the bounded recursion can stop early: one frame for a grid
whose first cell is unset and has an option is not enough. -/
theorem fillAux_zero (g : SudokuGrid) (n : Nat) (h : n < 81) :
    SudokuGrid.fillAux 0 n g = none := by
  rw [SudokuGrid.fillAux, if_neg (by omega)]

theorem fillLoop_success (next : SudokuGrid → Option (Bool × SudokuGrid)) (r c : Fin 9)
    (opts : List Int) : ∀ (g s : SudokuGrid),
    fillLoop next r.val c.val opts g = some (true, s) →
      ∃ (g1 : SudokuGrid) (v : Int), v ∈ opts ∧ next (g1.set r c v) = some (true, s) := by
  induction opts with
  | nil =>
    intro g s hs
    rw [fillLoop_nil] at hs
    cases hs
  | cons v rest ih =>
    intro g s hs
    rcases hn : next (g.set r c v) with _ | ⟨b2, g2⟩
    · rw [fillLoop, write_fin] at hs
      simp only [hn] at hs
      cases hs
    · cases b2
      · rw [fillLoop_cons_false _ _ _ _ _ _ _ hn] at hs
        obtain ⟨g1, w, hw, hres⟩ := ih _ s hs
        exact ⟨g1, w, List.mem_cons_of_mem _ hw, hres⟩
      · rw [fillLoop_cons_true _ _ _ _ _ _ _ hn] at hs
        cases hs
        exact ⟨g, v, List.mem_cons_self _ _, hn⟩

/-- After a successful `fill(n)` every cell from number `n` on holds a digit, whatever the grid
held before. -/
theorem fill_full_aux (k : Nat) : ∀ (n : Nat) (g s : SudokuGrid), 81 - n ≤ k →
    g.fill n = some (true, s) →
      ∀ m, n ≤ m → ∀ hm : m < 81, IsDigit (s.grid (rowIdx m hm) (colIdx m hm)) := by
  induction k with
  | zero =>
    intro n g s hk _ m hm hm2
    omega
  | succ k ih =>
    intro n g s hk hs m hm hm2
    by_cases h : n < 81
    · by_cases hd : IsDigit (g.grid (rowIdx n h) (colIdx n h))
      · have hs2 := hs
        rw [fill_unfold g n h, if_pos hd] at hs2
        by_cases hmn : m = n
        · subst hmn
          rw [fill_frame g m true s hs _ _ hd]
          exact hd
        · exact ih (n + 1) g s (by omega) hs2 m (by omega) hm2
      · have hs2 := hs
        rw [fill_unfold g n h, if_neg hd] at hs2
        obtain ⟨g1, v, hv, hres⟩ := fillLoop_success _ _ _ _ g s hs2
        have hvd : IsDigit v := isDigit_of_mem_optsF g _ _ v hv
        by_cases hmn : m = n
        · subst hmn
          have hset : IsDigit ((g1.set (rowIdx m h) (colIdx m h) v).grid (rowIdx m h)
              (colIdx m h)) := by
            rw [set_same]; exact hvd
          rw [fill_frame _ (m + 1) true s hres _ _ hset, set_same]
          exact hvd
        · exact ih (n + 1) _ s (by omega) hres m (by omega) hm2
    · omega

theorem fill_full (g s : SudokuGrid) (hs : g.fill 0 = some (true, s)) : Full s := by
  intro i j
  have h : 9 * i.val + j.val < 81 := by omega
  have := fill_full_aux 81 0 g s (by omega) hs (9 * i.val + j.val) (Nat.zero_le _) h
  rwa [rowIdx_mk, colIdx_mk] at this

theorem fill_of_full_aux (k : Nat) : ∀ (n : Nat) (s : SudokuGrid), 81 - n ≤ k → Full s →
    s.fill n = some (true, s) := by
  induction k with
  | zero =>
    intro n s hk _
    exact fill_done s n (by omega)
  | succ k ih =>
    intro n s hk hfull
    by_cases h : n < 81
    · rw [fill_unfold s n h, if_pos (hfull _ _)]
      exact ih (n + 1) s (by omega) hfull
    · exact fill_done s n (by omega)

theorem solve_of_full (s : SudokuGrid) (hfull : Full s) : s.solve = some (Except.ok s) :=
  (solve_ok_iff s s).2 (fill_of_full_aux 81 0 s (by omega) hfull)

theorem setRowsLoop_first_bad (rows : List GoString) (hrows : rows.length = 9) (i : Fin 9)
    (hbad : (rows.getD i.val []).length ≠ 9) (is : List (Fin 9)) :
    is.Pairwise (fun a b => a < b) → i ∈ is →
    (∀ k ∈ is, k < i → (rows.getD k.val []).length = 9) → ∀ g : SudokuGrid,
    ∃ s, g.setRowsLoop rows (is.map Fin.val) = some (some GridError.rowLength, s) ∧
      ∀ a b : Fin 9, s.grid a b =
        if a ∈ is ∧ a < i then parsedCell rows a.val b.val else g.grid a b := by
  induction is with
  | nil =>
    intro _ hi
    exact absurd hi (List.not_mem_nil i)
  | cons h rest ih =>
    intro hsorted hi hgood g
    have hh : h.val < rows.length := by rw [hrows]; exact h.isLt
    have hget : rows[h.val]? = some (rows.getD h.val []) := by
      rw [List.getD_eq_getElem _ _ hh, List.getElem?_eq_getElem hh]
    rw [List.pairwise_cons] at hsorted
    by_cases hhi : h = i
    · subst hhi
      refine ⟨g, ?_, ?_⟩
      · rw [List.map_cons, SudokuGrid.setRowsLoop, hget]
        simp only [ne_eq, hbad, not_false_eq_true, if_true]
      · intro a b
        rw [if_neg]
        rintro ⟨ha, hlt⟩
        rcases List.mem_cons.1 ha with rfl | ha
        · exact absurd hlt (lt_irrefl _)
        · exact absurd (hsorted.1 a ha) (not_lt_of_gt hlt)
    · have hirest : i ∈ rest := by
        rcases List.mem_cons.1 hi with h1 | h1
        · exact absurd h1.symm hhi
        · exact h1
      have hlt : h < i := hsorted.1 i hirest
      have hlen := hgood h (List.mem_cons_self _ _) hlt
      obtain ⟨g1, hg1, hcell1⟩ := setRowLoop_spec h (rows.getD h.val []) hlen (List.finRange 9) g
      rw [List.map_coe_finRange] at hg1
      obtain ⟨s, hs, hcell⟩ := ih hsorted.2 hirest
        (fun k hk hki => hgood k (List.mem_cons_of_mem _ hk) hki) g1
      refine ⟨s, ?_, ?_⟩
      · rw [List.map_cons, SudokuGrid.setRowsLoop, hget]
        simp only [hlen, ne_eq, not_true_eq_false, if_false, hg1]
        exact hs
      · intro a b
        rw [hcell]
        by_cases h1 : a ∈ rest ∧ a < i
        · rw [if_pos h1, if_pos ⟨List.mem_cons_of_mem _ h1.1, h1.2⟩]
        · rw [if_neg h1, hcell1]
          by_cases h2 : a = h
          · rw [if_pos ⟨h2, List.mem_finRange b⟩,
              if_pos ⟨h2 ▸ List.mem_cons_self _ _, h2 ▸ hlt⟩, h2]
            rfl
          · rw [if_neg (fun hx => h2 hx.1), if_neg]
            rintro ⟨h3, h4⟩
            rcases List.mem_cons.1 h3 with h5 | h5
            · exact h2 h5
            · exact h1 ⟨h5, h4⟩

theorem validateSubGrid_nine (g : SudokuGrid) : g.validateSubGrid 9 = none := by
  have h : subGridCells 9 = (9, 0) :: (subGridCells 9).tail := by decide
  rw [SudokuGrid.validateSubGrid, h, SudokuGrid.validateCells]
  rfl

theorem deadEnd_fill : deadEnd.fill 0 = some (false, deadEnd) := by
  have h : (deadEnd.fill 0).map (fun p => (p.1, p.2.toRows)) = some (false, deadEnd.toRows) := by
    decide!
  rcases hs : deadEnd.fill 0 with _ | ⟨b, s⟩
  · rw [hs] at h; cases h
  · rw [hs] at h
    simp only [Option.map_some', Option.some.injEq, Prod.mk.injEq] at h
    rw [h.1, toRows_inj s deadEnd h.2]
/-- C11 as stated fails: for the first grid of `solveTests` (cells in `0..9`) the text
`toString(false)` splits into ten rows, the last one empty, so `setValuesFromString` returns
the row-count error and the receiving grid stays as it was. -/
theorem setValuesFromString_toString_fails :
    (∀ i j : Fin 9, 0 ≤ solveTest0.grid i j ∧ solveTest0.grid i j ≤ 9) ∧
      (splitLines (removeSpaces (solveTest0.toString false))).length = 10 ∧
      newSudokuGrid.setValuesFromString (solveTest0.toString false) =
        some (some GridError.rowCount, newSudokuGrid) ∧
      newSudokuGrid.setValuesFromString (solveTest0.toString false) ≠ some (none, solveTest0) := by
  have h := setValuesFromString_toString solveTest0 newSudokuGrid (by unfold Std; decide)
  refine ⟨by decide, by decide, h, ?_⟩
  rw [h]
  simp

/-- C11 amended: for every grid `g` with cells in `0..9`, `setValuesFromString` on
`g.toString(false)` returns the row-count error and leaves the receiving grid unchanged (the
final newline gives `strings.Split` a tenth, empty row); on that text without its final newline
it returns no error and sets the receiving grid to `g`. -/
theorem setValuesFromString_roundtrip (g h : SudokuGrid)
    (hcells : ∀ i j : Fin 9, 0 ≤ g.grid i j ∧ g.grid i j ≤ 9) :
    h.setValuesFromString (g.toString false) = some (some GridError.rowCount, h) ∧
      h.setValuesFromString (g.toString false).dropLast = some (none, g) :=
  ⟨setValuesFromString_toString g h hcells, setValuesFromString_trimmed g h hcells⟩

/-- Witness for the amended C11 on the first grid of `solveTests`, read into an empty grid. -/
theorem setValuesFromString_roundtrip_witness :
    newSudokuGrid.setValuesFromString (solveTest0.toString false) =
        some (some GridError.rowCount, newSudokuGrid) ∧
      newSudokuGrid.setValuesFromString (solveTest0.toString false).dropLast =
        some (none, solveTest0) :=
  setValuesFromString_roundtrip solveTest0 newSudokuGrid (by decide)

/-- C12: for every `r`, `c` in `0..8`, `cellToSubGrid(r, c)` is `(r/3)*3 + c/3`, lies in `0..8`
and is the one index `s` for which `(r, c)` is among the nine cells that
`getSubGridChecklist(s)` and `validateSubGrid(s)` read; each of the nine sub-grids has nine
distinct cells, so they partition the 81 cells; and the six cases of `TestCellToGrid` hold. -/
theorem cellToSubGrid_spec (r c : Fin 9) :
    cellToSubGrid r.val c.val = (r.val / 3) * 3 + c.val / 3 ∧
      cellToSubGrid r.val c.val < 9 ∧
      (∀ s : Nat, (r.val, c.val) ∈ subGridCells s ↔ s = cellToSubGrid r.val c.val) ∧
      (∀ s : Fin 9, (subGridCells s.val).length = 9 ∧ (subGridCells s.val).Nodup) ∧
      (cellToSubGrid 1 1 = 0 ∧ cellToSubGrid 0 3 = 1 ∧ cellToSubGrid 2 8 = 2 ∧
        cellToSubGrid 3 1 = 3 ∧ cellToSubGrid 3 3 = 4 ∧ cellToSubGrid 5 8 = 5) := by
  refine ⟨rfl, cellToSubGrid_lt r c, fun s => mem_subGridCells s r.val c.val c.isLt, ?_,
    by decide⟩
  decide

/-- C13: for every grid with cells in `0..9`, `toString(true)` is thirteen lines of thirteen
bytes, each followed by a newline: lines 1, 5, 9 and 13 are the border "+---+---+---+" and the
other nine are the rows of the grid in order, written `|ddd|ddd|ddd|`; without the four border
lines and without every `|` the text is `toString(false)`. -/
theorem toString_pretty_spec (g : SudokuGrid)
    (hcells : ∀ i j : Fin 9, 0 ≤ g.grid i j ∧ g.grid i j ≤ 9) :
    ∃ lines : List GoString,
      lines.length = 13 ∧ (∀ l ∈ lines, l.length = 13 ∧ (10 : Byte) ∉ l) ∧
        g.toString true = lines.flatMap (fun l => l ++ [10]) ∧
        lines[0]? = some borderLine ∧ lines[4]? = some borderLine ∧
        lines[8]? = some borderLine ∧ lines[12]? = some borderLine ∧
        (∀ i : Fin 9, lines[i.val + i.val / 3 + 1]? =
          some [124, digitByte (g.grid i 0), digitByte (g.grid i 1), digitByte (g.grid i 2),
            124, digitByte (g.grid i 3), digitByte (g.grid i 4), digitByte (g.grid i 5),
            124, digitByte (g.grid i 6), digitByte (g.grid i 7), digitByte (g.grid i 8), 124]) ∧
        (∀ i j : Fin 9, (digitByte (g.grid i j)).val = 48 + (g.grid i j).toNat) ∧
        ((lines.filter fun l => l ≠ borderLine).map
          fun l => l.filter fun b => b ≠ 124).flatMap (fun l => l ++ [10]) =
          g.toString false := by
  refine ⟨g.prettyLines, rfl, ?_, toString_pretty g hcells, rfl, rfl, rfl, rfl, ?_, ?_, ?_⟩
  · intro l hl
    simp only [SudokuGrid.prettyLines, List.mem_cons, List.mem_singleton, List.not_mem_nil,
      or_false] at hl
    have hb : borderLine.length = 13 ∧ (10 : Byte) ∉ borderLine := by decide
    rcases hl with h | h | h | h | h | h | h | h | h | h | h | h | h
    all_goals first
      | (rw [h]; exact hb)
      | (rw [h]; exact prettyLine_shape g hcells _)
  · intro i
    fin_cases i <;> rfl
  · intro i j
    have := hcells i j
    simp only [digitByte]
    omega
  · rw [prettyLines_strip g hcells, toString_plain g hcells]

/-- Witness for C13 on the first grid of `solveTests`. -/
theorem toString_pretty_spec_witness :
    ∃ lines : List GoString,
      lines.length = 13 ∧ (∀ l ∈ lines, l.length = 13 ∧ (10 : Byte) ∉ l) ∧
        solveTest0.toString true = lines.flatMap (fun l => l ++ [10]) ∧
        lines[0]? = some borderLine ∧ lines[4]? = some borderLine ∧
        lines[8]? = some borderLine ∧ lines[12]? = some borderLine ∧
        (∀ i : Fin 9, lines[i.val + i.val / 3 + 1]? =
          some [124, digitByte (solveTest0.grid i 0), digitByte (solveTest0.grid i 1),
            digitByte (solveTest0.grid i 2), 124, digitByte (solveTest0.grid i 3),
            digitByte (solveTest0.grid i 4), digitByte (solveTest0.grid i 5), 124,
            digitByte (solveTest0.grid i 6), digitByte (solveTest0.grid i 7),
            digitByte (solveTest0.grid i 8), 124]) ∧
        (∀ i j : Fin 9, (digitByte (solveTest0.grid i j)).val =
          48 + (solveTest0.grid i j).toNat) ∧
        ((lines.filter fun l => l ≠ borderLine).map
          fun l => l.filter fun b => b ≠ 124).flatMap (fun l => l ++ [10]) =
          solveTest0.toString false :=
  toString_pretty_spec solveTest0 (by decide)

/-- C14: with the receiver as explicit state, `solve` always returns (a grid or the unsolvable
error) and the grid the receiver points to after the call is the grid it pointed to before,
in both cases; the returned value is that of `solve`. -/
theorem solve_keeps_receiver (g : SudokuGrid) :
    (∃ s, g.solveSt = some (Except.ok s, g) ∧ g.solve = some (Except.ok s)) ∨
      (g.solveSt = some (Except.error GridError.unsolvable, g) ∧
        g.solve = some (Except.error GridError.unsolvable)) := by
  rw [solveSt_eq]
  rcases solve_total g with h | ⟨s, hs⟩
  · right
    rw [h]
    exact ⟨rfl, rfl⟩
  · left
    refine ⟨s, ?_, hs⟩
    rw [hs]
    rfl

/-- C15: for every grid `g`, `copy(g)` holds the value of `g` in each of the 81 cells, so the
two print the same `toString(false)`; the receiver is untouched by the copying, and a write to a
cell of the copy changes that cell of the copy and leaves every cell of `g` as it was. -/
theorem copy_spec (g : SudokuGrid) (row col : Fin 9) (v : Int) :
    (∀ i j : Fin 9, g.copy.grid i j = g.grid i j) ∧
      g.copy.toString false = g.toString false ∧
      g.copySt.r = g.copy ∧ (∀ i j : Fin 9, g.copySt.recv.grid i j = g.grid i j) ∧
      (setCopyCell g.copySt row col v).r.grid row col = v ∧
      (∀ i j : Fin 9, (setCopyCell g.copySt row col v).recv.grid i j = g.grid i j) := by
  rw [copySt_eq, copy_eq]
  refine ⟨fun _ _ => rfl, rfl, rfl, fun _ _ => rfl, ?_, fun _ _ => rfl⟩
  simp only [setCopyCell]
  exact set_same g row col v

/-- C16: `fill` terminates on every grid and every start index: the call returns a boolean and
a grid, the `81 - n` nested calls the definition allows are enough (any larger bound gives the
same result), and for `solve`, which starts at cell 0, a bound of 81 nested calls below the
first one, 82 frames in all, is never exhausted. -/
theorem fill_terminates (g : SudokuGrid) (n : Nat) :
    (∃ b s, g.fill n = some (b, s)) ∧
      (∀ fuel, 81 - n ≤ fuel → SudokuGrid.fillAux fuel n g = g.fill n) ∧
      (∃ b s, SudokuGrid.fillAux 81 0 g = some (b, s)) ∧
      (∀ k, k < 81 → SudokuGrid.fillAux 0 k g = none) := by
  refine ⟨fill_total g n, fun fuel h => fillAux_eq_fill fuel n g h, ?_,
    fun k hk => fillAux_zero g k hk⟩
  exact fill_total g 0

/-- C18: for every grid with cells in `0..9` and every `n` in `0..81`, when `fill(n)` returns
false the grid after the call equals the grid before the call, cell for cell. -/
theorem fill_false_restores (g s : SudokuGrid) (n : Nat)
    (hcells : ∀ i j : Fin 9, 0 ≤ g.grid i j ∧ g.grid i j ≤ 9) (_hn : n ≤ 81)
    (hfill : g.fill n = some (false, s)) :
    ∀ i j : Fin 9, s.grid i j = g.grid i j := by
  intro i j
  rw [fill_restore g n hcells s hfill]

/-- Witness for C18 on `deadEnd`, where `fill(0)` tries 1 and 2 in the first cell, undoes both
and returns false. -/
theorem fill_false_restores_witness :
    deadEnd.getCellOptions 0 0 = some [1, 2] ∧ deadEnd.fill 0 = some (false, deadEnd) ∧
      ∀ i j : Fin 9, deadEnd.grid i j = deadEnd.grid i j :=
  ⟨by decide, deadEnd_fill,
    fill_false_restores deadEnd deadEnd 0 (by decide) (by decide) deadEnd_fill⟩
/-- C19: state after a failed parse.  With a row count other than 9 `setValuesFromStringArray`
returns the row-count error and the grid is unchanged; with 9 rows of which row `i` is the
first whose length is not 9 it returns the row-length error with rows `0..i-1` of the grid
holding the parsed values of input rows `0..i-1` and rows `i..8` of the grid unchanged. -/
theorem setValuesFromStringArray_failed_state (g : SudokuGrid) (rows : List GoString) :
    (rows.length ≠ 9 →
        g.setValuesFromStringArray rows = some (some GridError.rowCount, g)) ∧
      (rows.length = 9 → ∀ i : Fin 9, (rows.getD i.val []).length ≠ 9 →
        (∀ k : Fin 9, k < i → (rows.getD k.val []).length = 9) →
        ∃ s, g.setValuesFromStringArray rows = some (some GridError.rowLength, s) ∧
          ∀ a b : Fin 9,
            (a < i → s.grid a b = runeToInt (((rows.getD a.val []).getD b.val 0).val : Int)) ∧
              (i ≤ a → s.grid a b = g.grid a b)) := by
  constructor
  · intro hlen
    rw [SudokuGrid.setValuesFromStringArray, if_pos hlen]
  · intro hlen i hbad hgood
    obtain ⟨s, hs, hcell⟩ := setRowsLoop_first_bad rows hlen i hbad (List.finRange 9)
      (List.pairwise_lt_finRange 9) (List.mem_finRange i) (fun k _ hk => hgood k hk) g
    rw [List.map_coe_finRange] at hs
    refine ⟨s, ?_, ?_⟩
    · rw [SudokuGrid.setValuesFromStringArray, if_neg (by simp [hlen])]
      exact hs
    · intro a b
      constructor
      · intro ha
        rw [hcell, if_pos ⟨List.mem_finRange a, ha⟩]
        rfl
      · intro ha
        rw [hcell, if_neg (fun h => absurd h.2 (not_lt_of_ge ha))]

/-- Witness for C19: eight rows leave the empty grid empty, and nine rows of which row 2 is the
first of a wrong length leave rows 0 and 1 parsed and the cells of rows 2 to 8 as they were. -/
theorem setValuesFromStringArray_failed_state_witness :
    newSudokuGrid.setValuesFromStringArray eightRowSample =
        some (some GridError.rowCount, newSudokuGrid) ∧
      ∃ s, solveTest0Solved.setValuesFromStringArray shortRowSample =
          some (some GridError.rowLength, s) ∧
        ∀ a b : Fin 9,
          (a < 2 → s.grid a b =
            runeToInt (((shortRowSample.getD a.val []).getD b.val 0).val : Int)) ∧
            (2 ≤ a → s.grid a b = solveTest0Solved.grid a b) :=
  ⟨(setValuesFromStringArray_failed_state newSudokuGrid eightRowSample).1 (by decide),
    (setValuesFromStringArray_failed_state solveTest0Solved shortRowSample).2 (by decide) 2
      (by decide) (by decide)⟩

/-- C20: `solve` is idempotent on its results: when `solve(g)` returns a grid `s`, `solve(s)`
returns a grid too, equal to `s` cell for cell. -/
theorem solve_idempotent (g s : SudokuGrid) (hsolve : g.solve = some (Except.ok s)) :
    ∃ s2, s.solve = some (Except.ok s2) ∧ ∀ i j : Fin 9, s2.grid i j = s.grid i j :=
  ⟨s, solve_of_full s (fill_full g s ((solve_ok_iff g s).1 hsolve)), fun _ _ => rfl⟩

/-- Witness for C20 on the first case of `solveTests`. -/
theorem solve_idempotent_witness :
    ∃ s2, solveTest0Solved.solve = some (Except.ok s2) ∧
      ∀ i j : Fin 9, s2.grid i j = solveTest0Solved.grid i j :=
  solve_idempotent solveTest0 solveTest0Solved solveTest0_solve

/-- The first case of `solveTests` with the receiver as explicit state: the returned grid
differs from the input while the receiver still holds the input. -/
theorem solveTest0_solveSt :
    solveTest0.solveSt = some (Except.ok solveTest0Solved, solveTest0) ∧
      solveTest0Solved.grid 0 2 = 3 ∧ solveTest0.grid 0 2 = 0 := by
  refine ⟨?_, by decide, by decide⟩
  rw [solveSt_eq, solveTest0_solve]
  rfl
theorem utf8Char_ascii (c : Char) (h : c.toNat < 128) : utf8Char c = [charByte c] := by
  rw [utf8Char, if_pos h]
  rfl

theorem flatMap_utf8_ascii (l : List Char) (h : ∀ c ∈ l, c.toNat < 128) :
    l.flatMap utf8Char = l.map charByte := by
  induction l with
  | nil => rfl
  | cons c rest ih =>
    rw [List.flatMap_cons, List.map_cons, utf8Char_ascii c (h c (List.mem_cons_self _ _)),
      ih (fun x hx => h x (List.mem_cons_of_mem _ hx))]
    rfl

theorem string_length_toList (t : String) : t.length = t.toList.length := rfl

theorem utf8_ascii (t : String) (h : ∀ c ∈ t.toList, c.toNat < 128) :
    utf8 t = t.toList.map charByte :=
  flatMap_utf8_ascii t.toList h

theorem utf8_length_ascii (t : String) (h : ∀ c ∈ t.toList, c.toNat < 128) :
    (utf8 t).length = t.length := by
  rw [utf8_ascii t h, List.length_map, string_length_toList]

theorem ascii_rows_lengths (texts : List String)
    (hascii : ∀ t ∈ texts, ∀ c ∈ t.toList, c.toNat < 128) :
    ((texts.map utf8).length ≠ 9 ∨ ∃ row ∈ texts.map utf8, row.length ≠ 9) ↔
      (texts.length ≠ 9 ∨ ∃ t ∈ texts, t.length ≠ 9) := by
  rw [List.length_map]
  constructor
  · rintro (h | ⟨row, hrow, hlen⟩)
    · exact Or.inl h
    · obtain ⟨t, ht, rfl⟩ := List.mem_map.1 hrow
      rw [utf8_length_ascii t (hascii t ht)] at hlen
      exact Or.inr ⟨t, ht, hlen⟩
  · rintro (h | ⟨t, ht, hlen⟩)
    · exact Or.inl h
    · refine Or.inr ⟨utf8 t, List.mem_map_of_mem _ ht, ?_⟩
      rw [utf8_length_ascii t (hascii t ht)]
      exact hlen

/-- C8 as stated fails on rows that are not plain ASCII: `nineCharRows` is nine rows of nine
characters each and is rejected with the row-length error (its first row is ten bytes long),
and `eightCharRows` holds a row of eight characters and is accepted (that row is nine bytes
long). -/
theorem setValuesFromStringArray_counts_bytes :
    (nineCharRows.length = 9 ∧ (∀ t ∈ nineCharRows, t.length = 9) ∧
        (newSudokuGrid.setValuesFromStringArray (nineCharRows.map utf8)).map Prod.fst =
          some (some GridError.rowLength)) ∧
      (eightCharRows.length = 9 ∧ (∃ t ∈ eightCharRows, t.length ≠ 9) ∧
        (newSudokuGrid.setValuesFromStringArray (eightCharRows.map utf8)).map Prod.fst =
          some none) := by
  refine ⟨⟨by decide, by decide, by decide⟩, by decide, by decide, by decide⟩

/-- C8 amended: for every sequence of strings, `setValuesFromStringArray` returns an error
exactly when the sequence does not have 9 elements or some element's length in bytes (Go's
`len`) is not 9, and in every other case it returns no error; for rows of ASCII characters the
length in bytes is the number of characters, so there the condition reads in characters. -/
theorem setValuesFromStringArray_error_iff (g : SudokuGrid) :
    (∀ rows : List GoString,
      ((∃ e s, g.setValuesFromStringArray rows = some (some e, s)) ↔
          (rows.length ≠ 9 ∨ ∃ row ∈ rows, row.length ≠ 9)) ∧
        ((∃ s, g.setValuesFromStringArray rows = some (none, s)) ↔
          (rows.length = 9 ∧ ∀ row ∈ rows, row.length = 9))) ∧
      (∀ texts : List String, (∀ t ∈ texts, ∀ c ∈ t.toList, c.toNat < 128) →
        ((∃ e s, g.setValuesFromStringArray (texts.map utf8) = some (some e, s)) ↔
            (texts.length ≠ 9 ∨ ∃ t ∈ texts, t.length ≠ 9)) ∧
          ((∃ s, g.setValuesFromStringArray (texts.map utf8) = some (none, s)) ↔
            (texts.length = 9 ∧ ∀ t ∈ texts, t.length = 9))) := by
  refine ⟨fun rows => setValues_error_iff_bytes g rows, ?_⟩
  intro texts hascii
  have hb := setValues_error_iff_bytes g (texts.map utf8)
  have hl := ascii_rows_lengths texts hascii
  refine ⟨hb.1.trans hl, hb.2.trans ?_⟩
  rw [List.length_map]
  constructor
  · rintro ⟨h9, hall⟩
    refine ⟨h9, fun t ht => ?_⟩
    have := hall (utf8 t) (List.mem_map_of_mem _ ht)
    rwa [utf8_length_ascii t (hascii t ht)] at this
  · rintro ⟨h9, hall⟩
    refine ⟨h9, fun row hrow => ?_⟩
    obtain ⟨t, ht, rfl⟩ := List.mem_map.1 hrow
    rw [utf8_length_ascii t (hascii t ht)]
    exact hall t ht

/-- Witness for the amended C8: `parseSample`, nine rows of nine bytes, and `asciiRows`, nine
rows of nine ASCII characters, are both accepted. -/
theorem setValuesFromStringArray_error_iff_witness :
    (∃ s, newSudokuGrid.setValuesFromStringArray parseSample = some (none, s)) ∧
      (∃ s, newSudokuGrid.setValuesFromStringArray (asciiRows.map utf8) = some (none, s)) :=
  ⟨((setValuesFromStringArray_error_iff newSudokuGrid).1 parseSample).2.2
      ⟨by decide, by decide⟩,
    ((setValuesFromStringArray_error_iff newSudokuGrid).2 asciiRows (by decide)).2.2
      ⟨by decide, by decide⟩⟩

/-- C17 as stated fails at `s = 9`, the last index its wording admits: the first cell
`validateSubGrid(9)` reads is `g.grid[9][0]`, outside the grid, and the call panics instead of
returning a boolean. -/
theorem validateSubGrid_nine_panics :
    (subGridCells 9).head? = some (9, 0) ∧ newSudokuGrid.read 9 0 = none ∧
      newSudokuGrid.validateSubGrid 9 = none ∧ solveTest0.validateSubGrid 9 = none :=
  ⟨by decide, rfl, validateSubGrid_nine newSudokuGrid, validateSubGrid_nine solveTest0⟩

/-- C17 amended: for every `s` in `0..8`, the indices `validate` passes, and every grid,
`validateSubGrid(s)` reads only cells whose row and column indices are within `0..8` and
returns a boolean. -/
theorem validateSubGrid_in_range (g : SudokuGrid) (s : Nat) (hs : s ≤ 8) :
    (∀ p ∈ subGridCells s, p.1 < 9 ∧ p.2 < 9) ∧ ∃ b, g.validateSubGrid s = some b := by
  have h := validateSubGrid_fin g ⟨s, by omega⟩
  refine ⟨?_, _, h⟩
  intro p hp
  simp only [subGridCells, List.mem_flatMap, List.mem_map, List.mem_range] at hp
  obtain ⟨a, ha, b, hb, rfl⟩ := hp
  simp only
  omega

/-- Witness for the amended C17: the middle sub-grid of the first grid of `solveTests`. -/
theorem validateSubGrid_in_range_witness :
    (∀ p ∈ subGridCells 4, p.1 < 9 ∧ p.2 < 9) ∧ ∃ b, solveTest0.validateSubGrid 4 = some b :=
  validateSubGrid_in_range solveTest0 4 (by decide)

end Gosuto
